import Mathlib

/-!
Verification development for the trc-manager pipeline core
(`trc/pipeline.py`, `trc/stages/base.py`, `trc/stages/__init__.py` and the
stage modules).  The Python code is shallowly embedded: dictionaries become
association lists (Python dicts preserve insertion order, and all uses below
are either order-preserving iteration or key lookup), Python `set` values
become duplicate-free lists used only through membership, and exceptions
become `Except` values.  Error-message strings built by f-string
interpolation are represented by structured values that carry exactly the
interpolated data.
-/

/-- JSON-like values stored in the documents (`pipeline_outputs` values,
incident fields, people entries).  The pipeline core never inspects these
beyond moving them around, so a small representative universe suffices. -/
inductive PyVal where
  | str (s : String)
  | strList (l : List String)
  | tag (t : String)
deriving Repr

/-- Association-list lookup, the embedding of Python `d[k]` / `d.get(k)` for
string-keyed dicts (first matching key wins; Python keys are unique). -/
def alookup {α : Type} (l : List (String × α)) (k : String) : Option α :=
  match l with
  | [] => Option.none
  | (k2, v) :: rest => if k2 = k then Option.some v else alookup rest k

/-- Concatenation of mapped lists (the embedding of nested list-building
loops; same as `List.flatMap`). -/
def concatMap {α β : Type} (f : α → List β) : List α → List β
  | [] => []
  | x :: xs => f x ++ concatMap f xs

/-- A stage as seen by the pipeline core.  In the Python source the core
reads the attributes `inputs`, `outputs` and `depends_on` with
`getattr(stage, attr, [])`, so a stage class that does not define an
attribute contributes `[]`.  The `Option` fields model attribute
presence/absence; `requires` is declared by some stage classes
(e.g. `TranscriptionParsingStage`) but is never read by the core. -/
structure Stage where
  name : String
  inputs? : Option (List String) := Option.none
  outputs? : Option (List String) := Option.none
  dependsOn? : Option (List String) := Option.none
  requires? : Option (List String) := Option.none
deriving Repr, DecidableEq

/-- Embeds `getattr(stage, "inputs", [])`. -/
def Stage.inputs (s : Stage) : List String := s.inputs?.getD []

/-- Embeds `getattr(stage, "outputs", [])`. -/
def Stage.outputs (s : Stage) : List String := s.outputs?.getD []

/-- Embeds `getattr(stage, "depends_on", [])`. -/
def Stage.dependsOn (s : Stage) : List String := s.dependsOn?.getD []

/-- The built-in stage registry from `trc/stages/__init__.py`, with each
stage class's declared attributes transcribed from its module.
`TranscriptionParsingStage` declares only `requires = ["raw_vtt"]` and none
of `inputs`/`outputs`/`depends_on`. -/
def builtinRegistry : List (String × Stage) :=
  [ ("transcription_parsing",
      { name := "transcription_parsing", requires? := Option.some ["raw_vtt"] }),
    ("text_enhancement",
      { name := "text_enhancement", inputs? := Option.some ["transcription_parsing"],
        outputs? := Option.some ["text_enhancement"], dependsOn? := Option.some [] }),
    ("noise_reduction",
      { name := "noise_reduction", inputs? := Option.some ["text_enhancement"],
        outputs? := Option.some ["noise_reduction"], dependsOn? := Option.some [] }),
    ("participant_role_analysis",
      { name := "participant_role_analysis", inputs? := Option.some ["noise_reduction"],
        outputs? := Option.some ["participant_role_analysis"], dependsOn? := Option.some [] }),
    ("participant_knowledge_analysis",
      { name := "participant_knowledge_analysis",
        inputs? := Option.some ["noise_reduction", "participant_role_analysis"],
        outputs? := Option.some ["participant_knowledge_analysis", "participant_analysis"],
        dependsOn? := Option.some ["participant_role_analysis"] }),
    ("summarisation",
      { name := "summarisation", inputs? := Option.some ["noise_reduction"],
        outputs? := Option.some ["summarisation"], dependsOn? := Option.some [] }),
    ("keyword_extraction",
      { name := "keyword_extraction", inputs? := Option.some ["noise_reduction"],
        outputs? := Option.some ["keyword_extraction"], dependsOn? := Option.some [] }),
    ("master_summary_synthesis",
      { name := "master_summary_synthesis", inputs? := Option.some [],
        outputs? := Option.some ["master_summary_synthesis"],
        dependsOn? := Option.some ["summarisation"] }) ]

/-- A validator error; in the source it is the f-string
naming the stage and the input key that no enabled stage produces. -/
structure ValError where
  stage : String
  key : String
deriving Repr, DecidableEq

/-- The `available_outputs` set of `_validate_stage_inputs`: `raw_vtt` plus
every output declared by an enabled registry stage. -/
def availableOutputs (registry : List (String × Stage)) (enabled : List String) : List String :=
  "raw_vtt" :: concatMap (fun pr => pr.2.outputs)
    (registry.filter (fun pr => decide (pr.1 ∈ enabled)))

/-- Embeds `_validate_stage_inputs`: for every enabled registry stage, every
declared input key that is not in the available-output set yields one error. -/
def validate_stage_inputs (registry : List (String × Stage)) (enabled : List String) :
    List ValError :=
  let available := availableOutputs registry enabled
  concatMap (fun pr =>
    if pr.1 ∈ enabled then
      (pr.2.inputs.filter (fun k => decide (¬ k ∈ available))).map
        (fun k => ValError.mk pr.1 k)
    else []) registry

/-- The key set of the dependency graph built by `_build_dependency_graph`:
the enabled stages present in the registry. -/
def graphKeys (registry : List (String × Stage)) (enabled : List String) : List String :=
  (registry.filter (fun pr => decide (pr.1 ∈ enabled))).map (fun pr => pr.1)

/-- The `output_producers` reverse index of `_build_dependency_graph`,
restricted to one key: the enabled registry stages declaring that output. -/
def producersOf (registry : List (String × Stage)) (enabled : List String) (key : String) :
    List String :=
  (graphKeys registry enabled).filter
    (fun p => decide (key ∈ (((alookup registry p).map Stage.outputs).getD [])))

/-- The prerequisite set `_build_dependency_graph` assigns to one enabled
stage: explicit `depends_on` entries that are themselves graph keys, plus
the enabled producers of each non-`raw_vtt` input key, excluding the stage
itself.  The Python value is a `set`; it is modelled as the duplicate-free
list of the same members. -/
def depsOf (registry : List (String × Stage)) (enabled : List String)
    (name : String) (stg : Stage) : List String :=
  ((stg.dependsOn.filter (fun d => decide (d ∈ graphKeys registry enabled))) ++
    concatMap (fun k => (producersOf registry enabled k).filter (fun p => decide (¬ p = name)))
      (stg.inputs.filter (fun k => decide (¬ k = "raw_vtt")))).dedup

/-- Embeds `_build_dependency_graph`: maps each enabled registry stage to
its prerequisite set. -/
def build_dependency_graph (registry : List (String × Stage)) (enabled : List String) :
    List (String × List String) :=
  concatMap (fun pr =>
    if pr.1 ∈ enabled then [(pr.1, depsOf registry enabled pr.1 pr.2)] else []) registry

/-- Errors raised (as `ValueError`) by `_toposort_respecting_order`:
the structural missing-or-disabled-prerequisite message naming the
dependent stage and the prerequisite, and the dependency-cycle message. -/
inductive TopoError where
  | missingPrereq (stage : String) (prereq : String)
  | cycle
deriving Repr, DecidableEq

/-- Graph lookup `graph[s]` (defaulting to the empty set for absent keys,
which only `_collect_prereqs` relies on via `graph.get(n, set())`). -/
def glook (g : List (String × List String)) (s : String) : List String :=
  (alookup g s).getD []

/-- The node restriction of `_toposort_respecting_order`:
`nodes = [s for s in order if s in graph]`. -/
def toposortNodes (order : List String) (g : List (String × List String)) : List String :=
  order.filter (fun s => (alookup g s).isSome)

/-- The missing-prerequisite errors collected by `_toposort_respecting_order`
before running Kahn's algorithm. -/
def toposortErrors (order : List String) (g : List (String × List String)) : List TopoError :=
  let nodes := toposortNodes order g
  concatMap (fun s =>
    ((glook g s).filter (fun p => decide (¬ p ∈ nodes))).map
      (fun p => TopoError.missingPrereq s p)) nodes

/-- Embeds `queue.sort(key=lambda x: nodes.index(x))`.  Python's sort is
stable; `List.insertionSort` with the non-strict comparison on positions is
stable as well, and all queue members are distinct nodes so the sorted
order is unique in every reachable state. -/
def sortQueue (nodes : List String) (q : List String) : List String :=
  List.insertionSort (fun a b => nodes.indexOf a ≤ nodes.indexOf b) q

/-- Embeds the inner loop `for m in adj[n]` of Kahn's algorithm: decrement
the remaining-indegree of each dependent (`remaining[m] -= 1`), and
whenever the decremented value reaches zero, append the dependent to the
queue and re-sort the queue.  The dependent set `adj[n]` is passed as the
duplicate-free list `ms`. -/
def processNode (nodes : List String) (rem : String → Int) (queue : List String) :
    List String → (String → Int) × List String
  | [] => (rem, queue)
  | m :: ms =>
      processNode nodes (fun x => if x = m then rem m - 1 else rem x)
        (if rem m - 1 = 0 then sortQueue nodes (queue ++ [m]) else queue) ms

/-- Embeds the `while queue:` loop of Kahn's algorithm.  The loop pops the
head of the (sorted) queue, appends it to the output and processes its
dependents.  Python's loop needs no fuel; every node is enqueued at most
once, so the loop runs at most `2 * nodes.length` iterations and the fuel
passed by `toposort_respecting_order` is never exhausted. -/
def kahnLoop (nodes : List String) (adj : String → List String) :
    Nat → List String → (String → Int) → List String → List String
  | 0, _, _, out => out
  | Nat.succ _, [], _, out => out
  | Nat.succ fuel, n :: rest, rem, out =>
      kahnLoop nodes adj fuel (processNode nodes rem rest (adj n)).2
        (processNode nodes rem rest (adj n)).1 (out ++ [n])

/-- The initial in-degree map of `_toposort_respecting_order`: for each
node, the number of its prerequisites that are present (when the error
list is empty this is just the size of its prerequisite set). -/
def toposortIndeg (nodes : List String) (g : List (String × List String)) :
    String → Int :=
  fun s => (((glook g s).filter (fun p => decide (p ∈ nodes))).length : Int)

/-- The adjacency map of `_toposort_respecting_order`: `adj[p]` is the set
of nodes having `p` among their present prerequisites (a Python `set`,
modelled as the duplicate-free list in node order). -/
def toposortAdj (nodes : List String) (g : List (String × List String)) :
    String → List String :=
  fun p => nodes.filter (fun s => decide (p ∈ glook g s))

/-- The output list of the Kahn loop of `_toposort_respecting_order`,
seeded with the zero-in-degree nodes in preference order. -/
def toposortOut (order : List String) (g : List (String × List String)) : List String :=
  kahnLoop (toposortNodes order g) (toposortAdj (toposortNodes order g) g)
    (2 * (toposortNodes order g).length + 1)
    ((toposortNodes order g).filter
      (fun s => decide (toposortIndeg (toposortNodes order g) g s = 0)))
    (toposortIndeg (toposortNodes order g) g) []

/-- Embeds `_toposort_respecting_order`: restrict the preference order to
graph keys, report structural missing-prerequisite errors, then run Kahn's
algorithm seeded and tie-broken by the preference order; a short output
means a dependency cycle. -/
def toposort_respecting_order (order : List String) (g : List (String × List String)) :
    Except (List TopoError) (List String) :=
  if toposortErrors order g = [] then
    if (toposortOut order g).length = (toposortNodes order g).length then
      Except.ok (toposortOut order g)
    else Except.error [TopoError.cycle]
  else Except.error (toposortErrors order g)

/-- Fuel-indexed body of `_collect_prereqs`'s depth-first search.  The
recursion only descends after adding a node not yet visited, so the visited
set strictly grows along every call chain and the fuel passed by
`collect_prereqs` (one more than the total number of prerequisite entries)
is never exhausted. -/
def collectAux (g : List (String × List String)) : Nat → List String → String → List String
  | 0, visited, _ => visited
  | Nat.succ fuel, visited, n =>
      (glook g n).foldl
        (fun vis p => if p ∈ vis then vis else collectAux g fuel (vis ++ [p]) p) visited

/-- Total number of prerequisite entries in the graph, used as the fuel
bound for the depth-first search. -/
def graphEdgeCount (g : List (String × List String)) : Nat :=
  (g.map (fun pr => pr.2.length)).sum

/-- Embeds `_collect_prereqs`: the set of transitive prerequisites of
`start`, gathered by depth-first search over `graph.get(n, set())`. -/
def collect_prereqs (g : List (String × List String)) (start : String) : List String :=
  collectAux g (graphEdgeCount g + 1) [] start

/-- Embeds the start-index resolution of `process_pipeline` (the block
guarded by `if start_stage and start_stage in enabled_order:`).  The
`st ≠ ""` conjunct models Python truthiness of the stage name.  Note that
`_collect_prereqs` returns all transitive prerequisites; nothing here
consults the call document. -/
def resolve_start_index (g : List (String × List String)) (enabledOrder : List String)
    (startStage : Option String) : Nat :=
  match startStage with
  | Option.none => 0
  | Option.some st =>
      if st ≠ "" ∧ st ∈ enabledOrder then
        let prereqs := collect_prereqs g st
        let candidates := enabledOrder.filter (fun s => decide (s ∈ prereqs ∨ s = st))
        match candidates with
        | c :: _ => enabledOrder.indexOf c
        | [] => enabledOrder.indexOf st
      else 0

/-- Replacement/insertion into a string-keyed dict, the embedding of
`d[k] = v`: an existing key keeps its position, a new key is appended. -/
def assocSet {α : Type} (l : List (String × α)) (k : String) (v : α) : List (String × α) :=
  match l with
  | [] => [(k, v)]
  | (k2, v2) :: rest => if k2 = k then (k, v) :: rest else (k2, v2) :: assocSet rest k v

/-- A call (TRC) document, as created by `process_pipeline`. -/
structure Trc where
  trc_id : String
  start_time : String
  original_filename : String := ""
  original_filepath : String := ""
  file_hash : String := ""
  status : String
  pipeline_outputs : List (String × PyVal)
  pipeline_artifacts : List (String × String)
deriving Repr

/-- An incident document.  The structured parts the runner manipulates
(`keywords`, `trcs`, `pipeline_artifacts`) are typed fields; all remaining
dict keys (`title`, `master_summary`, and any other key a stage assigns
through its incident updates) live in `fields`. -/
structure IncidentDoc where
  incident_id : String
  keywords : List String
  trcs : List Trc
  pipeline_artifacts : List (String × String)
  fields : List (String × PyVal)
deriving Repr

/-- The default incident document created by `process_pipeline` when
`incidents/{id}.json` does not exist. -/
def initialIncident (incidentId : String) : IncidentDoc :=
  { incident_id := incidentId, keywords := [], trcs := [],
    pipeline_artifacts := [],
    fields := [("title", PyVal.str ""), ("master_summary", PyVal.str "")] }

/-- The fresh call document created by `process_pipeline` for an unseen
(incident, start-time) pair. -/
def newTrc (trcId startTimeIso vtt : String) : Trc :=
  { trc_id := trcId, start_time := startTimeIso, status := "processing",
    pipeline_outputs := [("raw_vtt", PyVal.str vtt)], pipeline_artifacts := [] }

/-- Modelled from the spec: the `StageLog` message payloads.  The source
builds these as f-strings; the structured constructors carry exactly the
interpolated data (validator errors, the joined `ValueError` text from the
scheduler, the missing-input list, the fixed skip text, a stage exception
message, and a free-text stage message). -/
inductive LogMsg where
  | missingInputProducer (stage : String) (key : String)
  | topoFailure (errs : List TopoError)
  | missingRequiredInputs (keys : List String)
  | unknownStageSkipped
  | stageException (msg : String)
  | stageMessage (msg : String)
deriving Repr, DecidableEq

/-- Modelled from the spec: the `StageLog` record.  `process_pipeline`
constructs and returns these, but the class definition is not under
`src/` (only its constructor calls and type annotations are); per the spec,
each entry records the stage name, a status of Completed/Failed/Skipped,
a wall-clock duration, optional input/output size summaries and free-text
messages.  The wall-clock duration is a real-time measurement and is
omitted from the embedding. -/
structure StageLog where
  stage : String
  status : String
  input_info : String := ""
  output_info : String := ""
  messages : List LogMsg := []
deriving Repr, DecidableEq

/-- The `PipelineResult` dataclass of `trc/pipeline.py`. -/
structure PipelineResult where
  incident_id : String
  trc_id : String
  stage_logs : List StageLog
  success : Bool
  failed_stage : Option String := Option.none
deriving Repr

/-- The exceptions `process_pipeline` can raise (escape from) in the
embedded fragment: the `TypeError` from calling a dataclass constructor
with an unexpected keyword argument. -/
inductive PyError where
  | typeError
deriving Repr, DecidableEq

/-- Field names of the `RunContext` dataclass in `trc/stages/base.py`,
in declaration order.  There is no `llm_config` field. -/
def runContextFields : List String :=
  ["incident_id", "trc_id", "incident", "trc", "data_dir", "incidents_dir",
   "people_path", "artifacts_dir", "start_dt"]

/-- The `RunContext` fields without default values (all but `start_dt`). -/
def runContextRequired : List String :=
  ["incident_id", "trc_id", "incident", "trc", "data_dir", "incidents_dir",
   "people_path", "artifacts_dir"]

/-- The keyword arguments `process_pipeline` passes to `RunContext(...)`
when building the per-stage context, in source order; it includes
`llm_config`. -/
def processPipelineCtxKwargs : List String :=
  ["incident_id", "trc_id", "incident", "trc", "data_dir", "incidents_dir",
   "people_path", "artifacts_dir", "llm_config", "start_dt"]

/-- Whether a Python dataclass call with the given keyword-argument names
succeeds: every keyword must name a declared field and every field without
a default must be supplied, otherwise the generated `__init__` raises
`TypeError`. -/
def dataclassInitOk (fields required kwargs : List String) : Bool :=
  kwargs.all (fun k => decide (k ∈ fields)) && required.all (fun f => decide (f ∈ kwargs))

/-- The `RunContext` value itself (fields as in `trc/stages/base.py`, with
paths as strings and the parsed start datetime as an optional string). -/
structure RunContext where
  incident_id : String
  trc_id : String
  incident : IncidentDoc
  trc : Trc
  data_dir : String
  incidents_dir : String
  people_path : String
  artifacts_dir : String
  start_dt : Option String := Option.none

/-- Incident-level updates carried by a stage result: the special-cased
`keywords` entry (present iff the dict holds that key) and the remaining
key/value assignments in dict order. -/
structure IncidentUpdates where
  keywords? : Option (List String) := Option.none
  assigns : List (String × PyVal) := []
deriving Repr

/-- Truthiness of the `incident_updates` dict: nonempty iff it has a key. -/
def IncidentUpdates.isEmpty (u : IncidentUpdates) : Bool :=
  u.keywords?.isNone && u.assigns.isEmpty

/-- The keyword merge of `process_pipeline`: existing keywords are read
into a set, the update's keywords are added, and the incident stores the
sorted set (Python `sorted(inc_kw)`); the result is the canonical sorted
duplicate-free list of the union. -/
def kwMerge (current new : List String) : List String :=
  List.insertionSort (fun a b => a ≤ b) ((current ++ new).dedup)

/-- The incident-update merge block of `process_pipeline`: nothing happens
for an empty dict; `keywords` merges as a set union; every other key
overwrites the incident field. -/
def applyIncidentUpdates (inc : IncidentDoc) (u : IncidentUpdates) : IncidentDoc :=
  if u.isEmpty then inc
  else
    let inc1 := match u.keywords? with
      | Option.some ks => { inc with keywords := kwMerge inc.keywords ks }
      | Option.none => inc
    { inc1 with fields := u.assigns.foldl (fun fs kv => assocSet fs kv.1 kv.2) inc1.fields }

/-- A person record in the shared people directory. -/
structure Person where
  raw_name : String
  display_name : String
  role_override : Option String
  discovered_roles : List PyVal
  discovered_knowledge : List PyVal
deriving Repr

/-- A per-person delta from a stage result's `people_directory_updates`. -/
structure PersonDelta where
  display_name? : Option String := Option.none
  discovered_roles : List PyVal := []
  discovered_knowledge : List PyVal := []
deriving Repr

/-- Character-level body of Python `str.title()`: the first alphabetic
character of each alphabetic run is uppercased and the rest lowercased
(cased/uncased distinctions beyond `isAlpha` are not needed here). -/
def pyTitleAux : Bool → List Char → List Char
  | _, [] => []
  | prevAlpha, c :: cs =>
      if c.isAlpha then
        (if prevAlpha then c.toLower else c.toUpper) :: pyTitleAux true cs
      else c :: pyTitleAux false cs

/-- Python `raw_name.title()`, the default display name for a new person. -/
def pyTitle (s : String) : String := String.mk (pyTitleAux false s.data)

/-- The record inserted by `ppl.setdefault(raw_name, {...})` for an unseen
person: display name seeded from the delta when provided, otherwise the
title-cased raw name; empty discovered lists. -/
def freshPerson (rawName : String) (d : PersonDelta) : Person :=
  { raw_name := rawName, display_name := d.display_name?.getD (pyTitle rawName),
    role_override := Option.none, discovered_roles := [], discovered_knowledge := [] }

/-- The append loops of the people merge: each provided role/knowledge
entry is appended to the person's respective list. -/
def appendDelta (p : Person) (d : PersonDelta) : Person :=
  { p with discovered_roles := p.discovered_roles ++ d.discovered_roles,
           discovered_knowledge := p.discovered_knowledge ++ d.discovered_knowledge }

/-- One person's merge step in `process_pipeline`: find-or-create the
record (a new person is appended at the end of the directory, as a new
Python dict key is), then append the delta's entries. -/
def mergePerson (ppl : List (String × Person)) (rawName : String) (d : PersonDelta) :
    List (String × Person) :=
  match alookup ppl rawName with
  | Option.some _ =>
      ppl.map (fun pr => if pr.1 = rawName then (pr.1, appendDelta pr.2 d) else pr)
  | Option.none => ppl ++ [(rawName, appendDelta (freshPerson rawName d) d)]

/-- The people-directory merge of one stage result, iterating the delta map
in order. -/
def mergePeople (ppl : List (String × Person)) (upds : List (String × PersonDelta)) :
    List (String × Person) :=
  upds.foldl (fun acc pr => mergePerson acc pr.1 pr.2) ppl

/-- The `StageOutput` dataclass of `trc/stages/base.py`. -/
structure StageOutput where
  trc_outputs : List (String × PyVal) := []
  trc_artifacts_text : List (String × String) := []
  trc_artifacts_json : List (String × PyVal) := []
  incident_updates : IncidentUpdates := {}
  incident_artifacts_text : List (String × String) := []
  incident_artifacts_json : List (String × PyVal) := []
  people_directory_updates : List (String × PersonDelta) := []
  input_info : String := ""
  output_info : String := ""
  messages : List String := []

/-- The ambient configuration of one `process_pipeline` invocation: the
stage registry (builtins plus `stages.json` entries) and the relevant
parts of `config.json`. -/
structure PipelineEnv where
  registry : List (String × Stage)
  pipelineOrder : List String
  stageEnabled : List (String × Bool)

/-- The enabled order computed by `process_pipeline`:
`[s for s in config["pipeline_order"] if stages.get(s, {}).get("enabled", True)]`. -/
def enabledOrderOf (env : PipelineEnv) : List String :=
  env.pipelineOrder.filter (fun s => (alookup env.stageEnabled s).getD true)

/-- The dependency graph `process_pipeline` builds for the enabled set. -/
def depGraphOf (env : PipelineEnv) : List (String × List String) :=
  build_dependency_graph env.registry (enabledOrderOf env)

/-- The persistent JSON state touched by one run: the incident document
(absent if the file does not exist) and the people directory. -/
structure PipelineState where
  incident? : Option IncidentDoc
  people : List (String × Person)
deriving Repr

/-- The observable outcome of one `process_pipeline` invocation: the
returned result or the escaped exception, the final persistent state, and
the names of the stages whose `run` was actually invoked, in order. -/
structure RunOutcome where
  result : Except PyError PipelineResult
  state : PipelineState
  executed : List String

/-- Lookup of the call document by id inside an incident. -/
def findTrc (inc : IncidentDoc) (trcId : String) : Option Trc :=
  inc.trcs.find? (fun t => t.trc_id == trcId)

/-- The document-setup prefix of `process_pipeline` (before any
validation): read or create the incident document, find or create the call
document for `trc_{start_time_iso}`; a newly created call document is
appended to the incident's list and the incident is persisted at once. -/
def setupDocs (vtt incidentId startTimeIso : String) (st : PipelineState) :
    IncidentDoc × Trc × PipelineState :=
  let incident := st.incident?.getD (initialIncident incidentId)
  let trcId := "trc_" ++ startTimeIso
  match findTrc incident trcId with
  | Option.some t => (incident, t, st)
  | Option.none =>
      let t := newTrc trcId startTimeIso vtt
      let incident2 := { incident with trcs := incident.trcs ++ [t] }
      (incident2, t, { st with incident? := Option.some incident2 })

/-- Write-through of the working call document into the incident document,
reflecting that in Python the call dict is an element of the incident's
`trcs` list and every `write_json(incident_path, incident)` persists both. -/
def writeIncidentWithTrc (inc : IncidentDoc) (trc : Trc) : IncidentDoc :=
  { inc with trcs := inc.trcs.map (fun t => if t.trc_id == trc.trc_id then trc else t) }

/-- State after persisting the incident (with the current call document). -/
def persist (st : PipelineState) (inc : IncidentDoc) (trc : Trc) : PipelineState :=
  { st with incident? := Option.some (writeIncidentWithTrc inc trc) }

/-- Artifact path of `save_trc_artifact_text` / `save_trc_artifact_json`. -/
def trcArtifactPath (incidentId trcId key ext : String) : String :=
  "data/artifacts/" ++ incidentId ++ "/" ++ trcId ++ "/" ++ key ++ ext

/-- Artifact path of `save_incident_artifact_text`. -/
def incArtifactPath (incidentId key : String) : String :=
  "data/artifacts/" ++ incidentId ++ "/" ++ key ++ ".txt"

/-- The `PipelineResult` constructor as called throughout `process_pipeline`. -/
def mkResult (incidentId trcId : String) (logs : List StageLog) (success : Bool)
    (failed : Option String) : PipelineResult :=
  { incident_id := incidentId, trc_id := trcId, stage_logs := logs,
    success := success, failed_stage := failed }

/-- The per-stage loop of `process_pipeline` over the scheduled order from
the resolved start index.  Each iteration resolves the stage in the
registry (an unresolvable name logs Skipped and continues), checks runtime
input availability (a missing input logs Failed and returns a failure
result), then constructs the per-stage `RunContext`; because
`process_pipeline` passes the `llm_config` keyword and the dataclass has
no such field, this construction raises `TypeError` outside the
`try`/`except`, which escapes the function.  The remaining branch embeds
the source's stage invocation and merge rules and is exercised for no
input (the context construction always fails), with the stage body
abstracted as `runImpl`. -/
def run_stages (env : PipelineEnv)
    (runImpl : String → RunContext → Except String StageOutput)
    (incidentId trcId : String) :
    List String → IncidentDoc → Trc → PipelineState → List StageLog → List String → RunOutcome
  | [], inc, trc, st, logs, executed =>
      let trc2 := { trc with status := "processed" }
      { result := Except.ok (mkResult incidentId trcId logs true Option.none),
        state := persist st inc trc2, executed := executed }
  | stageName :: rest, inc, trc, st, logs, executed =>
      match alookup env.registry stageName with
      | Option.none =>
          run_stages env runImpl incidentId trcId rest inc trc st
            (logs ++ [{ stage := stageName, status := "Skipped",
                        messages := [LogMsg.unknownStageSkipped] }]) executed
      | Option.some stage =>
          let missing := stage.inputs.filter (fun k => (alookup trc.pipeline_outputs k).isNone)
          if missing.isEmpty then
            if dataclassInitOk runContextFields runContextRequired processPipelineCtxKwargs then
              let ctx : RunContext :=
                { incident_id := incidentId, trc_id := trcId,
                  incident := writeIncidentWithTrc inc trc, trc := trc,
                  data_dir := "data", incidents_dir := "data/incidents",
                  people_path := "data/people/people_directory.json",
                  artifacts_dir := "data/artifacts" }
              match runImpl stageName ctx with
              | Except.error e =>
                  { result := Except.ok (mkResult incidentId trcId
                      (logs ++ [{ stage := stageName, status := "Failed",
                                  messages := [LogMsg.stageException e] }])
                      false (Option.some stageName)),
                    state := st, executed := executed ++ [stageName] }
              | Except.ok out =>
                  let trc2 := out.trc_outputs.foldl (fun t kv =>
                    { t with pipeline_outputs := assocSet t.pipeline_outputs kv.1 kv.2 }) trc
                  let trc3 := out.trc_artifacts_text.foldl (fun t kv =>
                    { t with pipeline_artifacts := assocSet t.pipeline_artifacts kv.1 (trcArtifactPath incidentId trcId kv.1 ".txt") }) trc2
                  let trc4 := out.trc_artifacts_json.foldl (fun t kv =>
                    { t with pipeline_artifacts := assocSet t.pipeline_artifacts kv.1 (trcArtifactPath incidentId trcId kv.1 ".json") }) trc3
                  let inc2 := applyIncidentUpdates inc out.incident_updates
                  let inc3 := out.incident_artifacts_text.foldl (fun i kv =>
                    { i with pipeline_artifacts := assocSet i.pipeline_artifacts (kv.1 ++ "_llm_output") (incArtifactPath incidentId kv.1) }) inc2
                  let st2 :=
                    if out.people_directory_updates.isEmpty then st
                    else { st with people := mergePeople st.people out.people_directory_updates }
                  let st3 := persist st2 inc3 trc4
                  run_stages env runImpl incidentId trcId rest inc3 trc4 st3
                    (logs ++ [{ stage := stageName, status := "Completed",
                                input_info := out.input_info, output_info := out.output_info,
                                messages := out.messages.map LogMsg.stageMessage }])
                    (executed ++ [stageName])
            else
              { result := Except.error PyError.typeError, state := st, executed := executed }
          else
            { result := Except.ok (mkResult incidentId trcId
                (logs ++ [{ stage := stageName, status := "Failed",
                            messages := [LogMsg.missingRequiredInputs missing] }])
                false (Option.some stageName)),
              state := st, executed := executed }

/-- The synthetic failure result returned for configuration errors. -/
def configFailure (incidentId trcId : String) (msgs : List LogMsg) : PipelineResult :=
  { incident_id := incidentId, trc_id := trcId,
    stage_logs := [{ stage := "config", status := "Failed", messages := msgs }],
    success := false, failed_stage := Option.some "config" }

/-- Embeds `process_pipeline` (`trc/pipeline.py`): document setup, input
validation, dependency-graph construction and topological ordering (any
error returns the synthetic config failure), start-index resolution, then
the per-stage loop. -/
def process_pipeline (env : PipelineEnv)
    (runImpl : String → RunContext → Except String StageOutput)
    (vtt incidentId startTimeIso : String) (startStage : Option String)
    (st : PipelineState) : RunOutcome :=
  let setup := setupDocs vtt incidentId startTimeIso st
  let trcId := "trc_" ++ startTimeIso
  let enabledOrder := enabledOrderOf env
  let inputErrors := validate_stage_inputs env.registry enabledOrder
  if inputErrors = [] then
    match toposort_respecting_order enabledOrder (depGraphOf env) with
    | Except.error errs =>
        { result := Except.ok (configFailure incidentId trcId [LogMsg.topoFailure errs]),
          state := setup.2.2, executed := [] }
    | Except.ok order2 =>
        let startIdx := resolve_start_index (depGraphOf env) order2 startStage
        run_stages env runImpl incidentId trcId (order2.drop startIdx)
          setup.1 setup.2.1 setup.2.2 [] []
  else
    { result := Except.ok (configFailure incidentId trcId
        (inputErrors.map (fun e => LogMsg.missingInputProducer e.stage e.key))),
      state := setup.2.2, executed := [] }

/-- The default `pipeline_order` of `read_config` (used when `config.json`
is absent); all seven stages are enabled. -/
def defaultPipelineOrder : List String :=
  ["transcription_parsing", "text_enhancement", "noise_reduction",
   "participant_analysis", "summarisation", "keyword_extraction",
   "master_summary_synthesis"]

/-- The environment of a run under the default configuration and the
built-in registry (no `stages.json`, no `config.json`). -/
def defaultEnv : PipelineEnv :=
  { registry := builtinRegistry, pipelineOrder := defaultPipelineOrder,
    stageEnabled := defaultPipelineOrder.map (fun s => (s, true)) }

/-- Formalization of the start-index rule as claim C5 states it (from the
claim text, not from the source, for comparison with
`resolve_start_index`): execution starts at the earliest position in the
final order occupied by either the resume stage itself or one of its
*unmet* transitive prerequisites, where a prerequisite counts as met when
all of its declared outputs are already present in the call document. -/
def claimed_start_index (registry : List (String × Stage)) (g : List (String × List String))
    (order : List String) (startStage : Option String) (trcKeys : List String) : Nat :=
  match startStage with
  | Option.none => 0
  | Option.some st =>
      if st ∈ order then
        order.findIdx (fun s => decide (s = st ∨
          (s ∈ collect_prereqs g st ∧
            ∃ o ∈ ((alookup registry s).map Stage.outputs).getD [], ¬ o ∈ trcKeys)))
      else 0

/-- A stage-run oracle that is never consulted in the proofs below (the
context construction fails first); any value would do. -/
def noRunImpl : String → RunContext → Except String StageOutput :=
  fun _ _ => Except.error "unreached"

/-- The empty persistent state: no incident file, empty people directory. -/
def emptyState : PipelineState := { incident? := Option.none, people := [] }

/-- A one-stage registry whose stage declares the same key as input and
output (expressible through `stages.json` overrides); its sole data
dependency is dropped as a self-dependency, so validation and scheduling
succeed while the key is absent from a fresh call document at run time. -/
def selfLoopRegistry : List (String × Stage) :=
  [("c", { name := "c", inputs? := Option.some ["k"], outputs? := Option.some ["k"] })]

/-- Environment for the self-producing stage. -/
def selfLoopEnv : PipelineEnv :=
  { registry := selfLoopRegistry, pipelineOrder := ["c"], stageEnabled := [] }

/-- The spec's disabled-prerequisite scenario: `summarize` depends on
`enhance`, which is disabled. -/
def depDropRegistry : List (String × Stage) :=
  [("summarize",
     { name := "summarize", inputs? := Option.some [], outputs? := Option.some ["summary"],
       dependsOn? := Option.some ["enhance"] }),
   ("enhance",
     { name := "enhance", inputs? := Option.some [], outputs? := Option.some ["enhanced"] })]

/-- Environment for the disabled-prerequisite scenario. -/
def depDropEnv : PipelineEnv :=
  { registry := depDropRegistry, pipelineOrder := ["summarize", "enhance"],
    stageEnabled := [("enhance", false)] }

/-- Two enabled stages declaring the same output key `k`, plus a consumer
of `k`. -/
def dupOutRegistry : List (String × Stage) :=
  [("s1", { name := "s1", inputs? := Option.some [], outputs? := Option.some ["k"] }),
   ("s2", { name := "s2", inputs? := Option.some [], outputs? := Option.some ["k"] }),
   ("con", { name := "con", inputs? := Option.some ["k"], outputs? := Option.some [] })]

/-- Environment enabling only the two duplicate producers. -/
def dupOutEnv : PipelineEnv :=
  { registry := dupOutRegistry, pipelineOrder := ["s1", "s2"], stageEnabled := [] }

/-- Environment whose configured order names only a stage that is not in
the registry. -/
def ghostEnv : PipelineEnv :=
  { registry := [("a", { name := "a" })], pipelineOrder := ["ghost"], stageEnabled := [] }

/-- Registry for the resume scenario: `a` produces `x`, `b` consumes it. -/
def resumeRegistry : List (String × Stage) :=
  [("a", { name := "a", inputs? := Option.some [], outputs? := Option.some ["x"] }),
   ("b", { name := "b", inputs? := Option.some ["x"], outputs? := Option.some [] })]

/-- The dependency graph of the resume scenario. -/
def resumeGraph : List (String × List String) := [("a", []), ("b", ["a"])]

theorem mem_concatMap {α β : Type} (f : α → List β) (l : List α) (b : β) :
    b ∈ concatMap f l ↔ ∃ a ∈ l, b ∈ f a := by
  induction l with
  | nil => simp [concatMap]
  | cons x xs ih => simp [concatMap, ih]

theorem concatMap_eq_nil_iff {α β : Type} (f : α → List β) (l : List α) :
    concatMap f l = [] ↔ ∀ a ∈ l, f a = [] := by
  induction l with
  | nil => simp [concatMap]
  | cons x xs ih => simp [concatMap, ih]

theorem alookup_isSome_iff {α : Type} (l : List (String × α)) (k : String) :
    (alookup l k).isSome ↔ k ∈ l.map Prod.fst := by
  induction l with
  | nil => simp [alookup]
  | cons pr rest ih =>
      obtain ⟨k2, v⟩ := pr
      by_cases h : k2 = k
      · subst h; simp [alookup]
      · simp [alookup, h, ih, Ne.symm h]

theorem alookup_eq_some_mem {α : Type} {l : List (String × α)} {k : String} {v : α}
    (h : alookup l k = Option.some v) : (k, v) ∈ l := by
  induction l with
  | nil => simp [alookup] at h
  | cons pr rest ih =>
      obtain ⟨k2, v2⟩ := pr
      by_cases hk : k2 = k
      · subst hk
        simp [alookup] at h
        simp [h]
      · simp [alookup, hk] at h
        simp [ih h]

theorem alookup_append_of_some {α : Type} {l1 : List (String × α)} {k : String} {v : α}
    (l2 : List (String × α)) (h : alookup l1 k = Option.some v) :
    alookup (l1 ++ l2) k = Option.some v := by
  induction l1 with
  | nil => simp [alookup] at h
  | cons pr rest ih =>
      obtain ⟨k2, v2⟩ := pr
      by_cases hk : k2 = k
      · subst hk; simp [alookup] at h ⊢; exact h
      · simp [alookup, hk] at h ⊢; exact ih h

theorem alookup_append_of_none {α : Type} {l1 : List (String × α)} {k : String}
    (l2 : List (String × α)) (h : alookup l1 k = Option.none) :
    alookup (l1 ++ l2) k = alookup l2 k := by
  induction l1 with
  | nil => simp
  | cons pr rest ih =>
      obtain ⟨k2, v2⟩ := pr
      by_cases hk : k2 = k
      · subst hk; simp [alookup] at h
      · simp [alookup, hk] at h ⊢; exact ih h

theorem alookup_assocSet_self {α : Type} (l : List (String × α)) (k : String) (v : α) :
    alookup (assocSet l k v) k = Option.some v := by
  induction l with
  | nil => simp [assocSet, alookup]
  | cons pr rest ih =>
      obtain ⟨k2, v2⟩ := pr
      by_cases hk : k2 = k
      · subst hk; simp [assocSet, alookup]
      · simp [assocSet, alookup, hk, ih]

theorem alookup_assocSet_ne {α : Type} (l : List (String × α)) {k k2 : String} (v : α)
    (h : k ≠ k2) : alookup (assocSet l k v) k2 = alookup l k2 := by
  induction l with
  | nil => simp [assocSet, alookup, h]
  | cons pr rest ih =>
      obtain ⟨k3, v3⟩ := pr
      by_cases hk : k3 = k
      · subst hk; simp [assocSet, alookup, h]
      · simp [assocSet, alookup, hk, ih]

theorem alookup_foldl_assocSet_of_not_mem {α : Type} (l : List (String × α))
    (fs : List (String × α)) (k : String) (h : ¬ k ∈ l.map Prod.fst) :
    alookup (l.foldl (fun acc kv => assocSet acc kv.1 kv.2) fs) k = alookup fs k := by
  induction l generalizing fs with
  | nil => simp
  | cons kv rest ih =>
      simp only [List.map_cons, List.mem_cons] at h
      push_neg at h
      simp only [List.foldl_cons]
      rw [ih _ h.2, alookup_assocSet_ne _ _ (fun he => h.1 he.symm)]

theorem alookup_foldl_assocSet_of_mem {α : Type} (l : List (String × α))
    (fs : List (String × α)) (k : String) (v : α)
    (hmem : (k, v) ∈ l) (hnd : (l.map Prod.fst).Nodup) :
    alookup (l.foldl (fun acc kv => assocSet acc kv.1 kv.2) fs) k = Option.some v := by
  induction l generalizing fs with
  | nil => simp at hmem
  | cons kv rest ih =>
      simp only [List.map_cons, List.nodup_cons] at hnd
      simp only [List.mem_cons] at hmem
      rcases hmem with h | h
      · subst h
        simp only [List.foldl_cons]
        rw [alookup_foldl_assocSet_of_not_mem _ _ _ hnd.1, alookup_assocSet_self]
      · simp only [List.foldl_cons]
        exact ih _ h hnd.2

theorem kwMerge_sorted (S K : List String) :
    List.Sorted (fun a b : String => a ≤ b) (kwMerge S K) :=
  List.sorted_insertionSort _ _

theorem kwMerge_nodup (S K : List String) : (kwMerge S K).Nodup :=
  (List.perm_insertionSort _ _).nodup_iff.mpr (List.nodup_dedup _)

theorem kwMerge_toFinset (S K : List String) :
    (kwMerge S K).toFinset = S.toFinset ∪ K.toFinset := by
  have h := List.toFinset_eq_of_perm _ _
    (List.perm_insertionSort (fun a b : String => a ≤ b) ((S ++ K).dedup))
  have h2 : (S ++ K).dedup.toFinset = (S ++ K).toFinset :=
    List.toFinset.ext (fun _ => List.mem_dedup)
  rw [kwMerge, h, h2, List.toFinset_append]

theorem kwMerge_idem (S K : List String) : kwMerge (kwMerge S K) K = kwMerge S K := by
  refine List.eq_of_perm_of_sorted
    (List.perm_of_nodup_nodup_toFinset_eq (kwMerge_nodup _ _) (kwMerge_nodup _ _) ?_)
    (kwMerge_sorted _ _) (kwMerge_sorted _ _)
  rw [kwMerge_toFinset, kwMerge_toFinset, Finset.union_assoc, Finset.union_self]

/-- C8: merging a successful stage result whose incident updates carry a
keywords collection `K` into an incident with keyword list `S` makes the
incident's keyword set the union of the two; every other update key
overwrites the corresponding incident field; and applying the very same
keywords merge a second time leaves the keyword list (in particular its
size) unchanged — set union, not list concatenation. -/
theorem C8_keywords_set_union_idem (inc : IncidentDoc) (u : IncidentUpdates)
    (K : List String) (hk : u.keywords? = Option.some K)
    (hnd : (u.assigns.map Prod.fst).Nodup) :
    ((applyIncidentUpdates inc u).keywords.toFinset = inc.keywords.toFinset ∪ K.toFinset) ∧
    (∀ k v, (k, v) ∈ u.assigns →
      alookup (applyIncidentUpdates inc u).fields k = Option.some v) ∧
    ((applyIncidentUpdates (applyIncidentUpdates inc u) u).keywords.length =
      (applyIncidentUpdates inc u).keywords.length) := by
  have hempty : u.isEmpty = false := by
    simp [IncidentUpdates.isEmpty, hk]
  have happly : ∀ inc2 : IncidentDoc, applyIncidentUpdates inc2 u =
      { inc2 with keywords := kwMerge inc2.keywords K,
                  fields := u.assigns.foldl (fun fs kv => assocSet fs kv.1 kv.2) inc2.fields } := by
    intro inc2
    simp [applyIncidentUpdates, hempty, hk]
  refine ⟨?_, ?_, ?_⟩
  · rw [happly]
    exact kwMerge_toFinset _ _
  · intro k v hmem
    rw [happly]
    exact alookup_foldl_assocSet_of_mem _ _ _ _ hmem hnd
  · rw [happly, happly]
    simp [kwMerge_idem]

/-- Witness for C8 at a concrete incident and update. -/
theorem C8_keywords_set_union_idem_witness :
    (({ keywords? := Option.some ["c", "a"], assigns := [("title", PyVal.str "T")] }
        : IncidentUpdates).keywords? = Option.some ["c", "a"] ∧
      ((({ keywords? := Option.some ["c", "a"], assigns := [("title", PyVal.str "T")] }
        : IncidentUpdates).assigns.map Prod.fst).Nodup)) ∧
    (((applyIncidentUpdates
        { incident_id := "INC1", keywords := ["a", "b"], trcs := [],
          pipeline_artifacts := [], fields := [] }
        { keywords? := Option.some ["c", "a"],
          assigns := [("title", PyVal.str "T")] }).keywords.toFinset =
        (["a", "b"] : List String).toFinset ∪ (["c", "a"] : List String).toFinset) ∧
      (∀ k v, (k, v) ∈ ([("title", PyVal.str "T")] : List (String × PyVal)) →
        alookup (applyIncidentUpdates
          { incident_id := "INC1", keywords := ["a", "b"], trcs := [],
            pipeline_artifacts := [], fields := [] }
          { keywords? := Option.some ["c", "a"],
            assigns := [("title", PyVal.str "T")] }).fields k = Option.some v) ∧
      ((applyIncidentUpdates (applyIncidentUpdates
          { incident_id := "INC1", keywords := ["a", "b"], trcs := [],
            pipeline_artifacts := [], fields := [] }
          { keywords? := Option.some ["c", "a"],
            assigns := [("title", PyVal.str "T")] })
          { keywords? := Option.some ["c", "a"],
            assigns := [("title", PyVal.str "T")] }).keywords.length =
        (applyIncidentUpdates
          { incident_id := "INC1", keywords := ["a", "b"], trcs := [],
            pipeline_artifacts := [], fields := [] }
          { keywords? := Option.some ["c", "a"],
            assigns := [("title", PyVal.str "T")] }).keywords.length)) :=
  ⟨⟨rfl, by decide⟩,
    C8_keywords_set_union_idem
      { incident_id := "INC1", keywords := ["a", "b"], trcs := [],
        pipeline_artifacts := [], fields := [] }
      { keywords? := Option.some ["c", "a"], assigns := [("title", PyVal.str "T")] }
      ["c", "a"] rfl (by decide)⟩

theorem alookup_map_update_self {ppl : List (String × Person)} {n : String} {p : Person}
    (f : Person → Person) (h : alookup ppl n = Option.some p) :
    alookup (ppl.map (fun pr => if pr.1 = n then (pr.1, f pr.2) else pr)) n =
      Option.some (f p) := by
  induction ppl with
  | nil => simp [alookup] at h
  | cons pr rest ih =>
      obtain ⟨k2, v2⟩ := pr
      have hbeta : (fun pr : String × Person => if pr.1 = n then (pr.1, f pr.2) else pr) (k2, v2)
          = if k2 = n then (k2, f v2) else (k2, v2) := rfl
      simp only [List.map_cons, hbeta]
      by_cases hk : k2 = n
      · subst hk
        rw [alookup, if_pos rfl] at h
        injection h with h
        subst h
        rw [if_pos rfl, alookup, if_pos rfl]
      · rw [alookup, if_neg hk] at h
        rw [if_neg hk, alookup, if_neg hk]
        exact ih h

theorem alookup_map_update_ne (ppl : List (String × Person)) (n m : String)
    (f : Person → Person) (h : m ≠ n) :
    alookup (ppl.map (fun pr => if pr.1 = n then (pr.1, f pr.2) else pr)) m =
      alookup ppl m := by
  induction ppl with
  | nil => simp
  | cons pr rest ih =>
      obtain ⟨k2, v2⟩ := pr
      have hbeta : (fun pr : String × Person => if pr.1 = n then (pr.1, f pr.2) else pr) (k2, v2)
          = if k2 = n then (k2, f v2) else (k2, v2) := rfl
      simp only [List.map_cons, hbeta]
      by_cases hk : k2 = n
      · subst hk
        have hm : ¬ k2 = m := fun he => h he.symm
        rw [if_pos rfl, alookup, if_neg hm, alookup, if_neg hm]
        exact ih
      · rw [if_neg hk]
        by_cases hm : k2 = m
        · subst hm
          rw [alookup, if_pos rfl, alookup, if_pos rfl]
        · rw [alookup, if_neg hm, alookup, if_neg hm]
          exact ih

theorem mergePerson_lookup_self_existing {ppl : List (String × Person)} {n : String}
    {p : Person} (d : PersonDelta) (h : alookup ppl n = Option.some p) :
    alookup (mergePerson ppl n d) n = Option.some (appendDelta p d) := by
  rw [mergePerson, h]
  exact alookup_map_update_self (fun q => appendDelta q d) h

theorem mergePerson_lookup_self_new {ppl : List (String × Person)} {n : String}
    (d : PersonDelta) (h : alookup ppl n = Option.none) :
    alookup (mergePerson ppl n d) n =
      Option.some (appendDelta (freshPerson n d) d) := by
  rw [mergePerson, h, alookup_append_of_none _ h]
  simp [alookup]

theorem mergePerson_lookup_ne (ppl : List (String × Person)) (n m : String)
    (d : PersonDelta) (h : m ≠ n) :
    alookup (mergePerson ppl n d) m = alookup ppl m := by
  cases hl : alookup ppl n with
  | some p =>
      rw [mergePerson, hl]
      exact alookup_map_update_ne ppl n m (fun q => appendDelta q d) h
  | none =>
      rw [mergePerson, hl]
      cases hm : alookup ppl m with
      | some q => exact alookup_append_of_some _ hm
      | none =>
          rw [alookup_append_of_none _ hm]
          have hnm : ¬ n = m := fun he => h he.symm
          simp [alookup, hnm, hm]

theorem mergePeople_single (ppl : List (String × Person)) (n : String) (d : PersonDelta) :
    mergePeople ppl [(n, d)] = mergePerson ppl n d := rfl

/-- C9: two successive people-directory merges naming the same person
append both runs' role/knowledge entries in order to the person's lists,
never overwriting or removing previously stored entries; a record is
created (display name seeded from the delta, falling back to the
title-cased raw name) only when the person did not already exist; and no
other person's record is touched. -/
theorem C9_people_directory_append_only (ppl : List (String × Person)) (n : String)
    (d1 d2 : PersonDelta) :
    (∀ p0, alookup ppl n = Option.some p0 →
      alookup (mergePeople (mergePeople ppl [(n, d1)]) [(n, d2)]) n =
        Option.some
          { raw_name := p0.raw_name, display_name := p0.display_name,
            role_override := p0.role_override,
            discovered_roles :=
              p0.discovered_roles ++ d1.discovered_roles ++ d2.discovered_roles,
            discovered_knowledge :=
              p0.discovered_knowledge ++ d1.discovered_knowledge ++ d2.discovered_knowledge }) ∧
    (alookup ppl n = Option.none →
      alookup (mergePeople (mergePeople ppl [(n, d1)]) [(n, d2)]) n =
        Option.some
          { raw_name := n, display_name := d1.display_name?.getD (pyTitle n),
            role_override := Option.none,
            discovered_roles := d1.discovered_roles ++ d2.discovered_roles,
            discovered_knowledge := d1.discovered_knowledge ++ d2.discovered_knowledge }) ∧
    (∀ m, m ≠ n →
      alookup (mergePeople (mergePeople ppl [(n, d1)]) [(n, d2)]) m = alookup ppl m) := by
  refine ⟨?_, ?_, ?_⟩
  · intro p0 h0
    rw [mergePeople_single, mergePeople_single,
      mergePerson_lookup_self_existing d2 (mergePerson_lookup_self_existing d1 h0)]
    simp [appendDelta]
  · intro h0
    rw [mergePeople_single, mergePeople_single,
      mergePerson_lookup_self_existing d2 (mergePerson_lookup_self_new d1 h0)]
    simp [appendDelta, freshPerson]
  · intro m hm
    rw [mergePeople_single, mergePeople_single, mergePerson_lookup_ne _ _ _ _ hm,
      mergePerson_lookup_ne _ _ _ _ hm]

/-- Witness for C9 at a concrete directory: person `ana` exists with one
stored role entry; the existing-person case of the theorem is consulted at
concrete deltas. -/
theorem C9_people_directory_append_only_witness :
    (alookup
        [("ana",
          ({ raw_name := "ana", display_name := "Ana", role_override := Option.none,
             discovered_roles := [PyVal.str "r0"],
             discovered_knowledge := [] } : Person))] "ana" =
      Option.some
        { raw_name := "ana", display_name := "Ana", role_override := Option.none,
          discovered_roles := [PyVal.str "r0"], discovered_knowledge := [] }) ∧
    (alookup
        (mergePeople
          (mergePeople
            [("ana",
              ({ raw_name := "ana", display_name := "Ana", role_override := Option.none,
                 discovered_roles := [PyVal.str "r0"],
                 discovered_knowledge := [] } : Person))]
            [("ana", ({ discovered_roles := [PyVal.str "r1"] } : PersonDelta))])
          [("ana",
            ({ discovered_roles := [PyVal.str "r2"],
               discovered_knowledge := [PyVal.str "k2"] } : PersonDelta))]) "ana" =
      Option.some
        { raw_name := "ana", display_name := "Ana", role_override := Option.none,
          discovered_roles := [PyVal.str "r0"] ++ [PyVal.str "r1"] ++ [PyVal.str "r2"],
          discovered_knowledge := ([] : List PyVal) ++ [] ++ [PyVal.str "k2"] }) :=
  ⟨rfl,
    (C9_people_directory_append_only
      [("ana",
        ({ raw_name := "ana", display_name := "Ana", role_override := Option.none,
           discovered_roles := [PyVal.str "r0"], discovered_knowledge := [] } : Person))]
      "ana" { discovered_roles := [PyVal.str "r1"] }
      { discovered_roles := [PyVal.str "r2"],
        discovered_knowledge := [PyVal.str "k2"] }).1 _ rfl⟩

theorem indexOf_head_filter {l : List String} {p : String → Bool} {c : String}
    {rest : List String} (h : l.filter p = c :: rest) :
    l.indexOf c = l.findIdx p := by
  induction l generalizing rest with
  | nil => simp at h
  | cons x xs ih =>
      by_cases hp : p x
      · rw [List.filter_cons_of_pos hp] at h
        injection h with h1 h2
        subst h1
        rw [List.indexOf_cons_self, List.findIdx_cons, hp]
        rfl
      · rw [List.filter_cons_of_neg (by simp [hp])] at h
        have hc : p c = true := List.of_mem_filter (by rw [h]; exact List.mem_cons_self c rest)
        have hne : x ≠ c := fun he => hp (he ▸ hc)
        rw [List.indexOf_cons_ne _ hne, List.findIdx_cons]
        simp only [hp, cond_false]
        rw [ih h]

theorem findIdx_le_indexOf {l : List String} {p : String → Bool} {x : String}
    (hx : x ∈ l) (hp : p x = true) : l.findIdx p ≤ l.indexOf x := by
  induction l with
  | nil => simp at hx
  | cons a l ih =>
      by_cases ha : a = x
      · subst ha
        rw [List.findIdx_cons, hp]
        exact Nat.zero_le _
      · rw [List.findIdx_cons, List.indexOf_cons_ne _ ha]
        cases hpa : p a with
        | true => simp
        | false =>
            simp only [cond_false]
            have hx2 : x ∈ l := by
              rcases List.mem_cons.mp hx with h | h
              · exact absurd h.symm ha
              · exact h
            exact Nat.succ_le_succ (ih hx2)

/-- C5 (amended): `process_pipeline` resolves its starting index as
follows: with no resume stage, an empty resume-stage name, or a name not
in the final order, it starts at index 0; otherwise it starts at the
earliest position in the final order occupied by the resume stage or by
*any* of its transitive prerequisites as computed by `_collect_prereqs` —
regardless of whether a prerequisite's outputs are already present in the
call document — and in particular never later than the resume stage's own
position. -/
theorem C5_resolve_start_index_amended (g : List (String × List String))
    (order : List String) :
    (resolve_start_index g order Option.none = 0) ∧
    (∀ stg : String, stg = "" ∨ ¬ stg ∈ order →
      resolve_start_index g order (Option.some stg) = 0) ∧
    (∀ stg : String, stg ≠ "" → stg ∈ order →
      resolve_start_index g order (Option.some stg) =
        order.findIdx (fun s => decide (s ∈ collect_prereqs g stg ∨ s = stg)) ∧
      resolve_start_index g order (Option.some stg) ≤ order.indexOf stg) := by
  refine ⟨rfl, ?_, ?_⟩
  · intro stg h
    have hcond : ¬ (stg ≠ "" ∧ stg ∈ order) := by
      rcases h with h | h
      · exact fun hc => hc.1 h
      · exact fun hc => h hc.2
    simp only [resolve_start_index]
    rw [if_neg hcond]
  · intro stg hne hmem
    have heq : resolve_start_index g order (Option.some stg) =
        order.findIdx (fun s => decide (s ∈ collect_prereqs g stg ∨ s = stg)) := by
      simp only [resolve_start_index]
      rw [if_pos (And.intro hne hmem)]
      have hstg : stg ∈ order.filter (fun s => decide (s ∈ collect_prereqs g stg ∨ s = stg)) :=
        List.mem_filter.mpr ⟨hmem, by simp⟩
      cases hc : order.filter (fun s => decide (s ∈ collect_prereqs g stg ∨ s = stg)) with
      | nil => rw [hc] at hstg; simp at hstg
      | cons c rest => exact indexOf_head_filter hc
    refine ⟨heq, ?_⟩
    rw [heq]
    exact findIdx_le_indexOf hmem (by simp)

/-- Witness for C5 (amended) in the resume scenario: resuming from `b`,
whose sole transitive prerequisite is `a`, starts at the position of `a`. -/
theorem C5_resolve_start_index_amended_witness :
    (("b" : String) ≠ "" ∧ ("b" : String) ∈ ["a", "b"]) ∧
    (resolve_start_index resumeGraph ["a", "b"] (Option.some "b") =
      (["a", "b"] : List String).findIdx
        (fun s => decide (s ∈ collect_prereqs resumeGraph "b" ∨ s = "b")) ∧
     resolve_start_index resumeGraph ["a", "b"] (Option.some "b") ≤
      (["a", "b"] : List String).indexOf "b") :=
  ⟨⟨by decide, by decide⟩,
    (C5_resolve_start_index_amended resumeGraph ["a", "b"]).2.2 "b" (by decide) (by decide)⟩

/-- Counterexample to C5 as stated: with stages `a` (producing `x`) and
`b` (consuming `x`), a call document that already contains `a`'s output
`x`, and a resume request for `b`, the code starts at index 0 (the
position of the met prerequisite `a`), whereas the claim — under which
prerequisites whose outputs are already present do not move the start
earlier — demands index 1 (the position of `b` itself). -/
theorem C5_counterexample :
    resolve_start_index resumeGraph ["a", "b"] (Option.some "b") = 0 ∧
    claimed_start_index resumeRegistry resumeGraph ["a", "b"] (Option.some "b")
      ["raw_vtt", "x"] = 1 ∧
    resolve_start_index resumeGraph ["a", "b"] (Option.some "b") ≠
      claimed_start_index resumeRegistry resumeGraph ["a", "b"] (Option.some "b")
        ["raw_vtt", "x"] := by
  refine ⟨by decide, by decide, by decide⟩

theorem concatMap_if_map_fst {β : Type} (enabled : List String) (f : String × Stage → β)
    (l : List (String × Stage)) :
    (concatMap (fun pr => if pr.1 ∈ enabled then [(pr.1, f pr)] else []) l).map Prod.fst =
      (l.filter (fun pr => decide (pr.1 ∈ enabled))).map (fun pr => pr.1) := by
  induction l with
  | nil => simp [concatMap]
  | cons pr rest ih =>
      by_cases h : pr.1 ∈ enabled
      · rw [concatMap, List.filter_cons_of_pos (by simpa using h), if_pos h]
        simp only [List.map_append, List.map_cons]
        rw [ih]
        rfl
      · rw [concatMap, List.filter_cons_of_neg (by simpa using h), if_neg h]
        simpa using ih

theorem depsOf_subset_graphKeys (registry : List (String × Stage)) (enabled : List String)
    (name : String) (stg : Stage) :
    ∀ x ∈ depsOf registry enabled name stg, x ∈ graphKeys registry enabled := by
  intro x hx
  rw [depsOf, List.mem_dedup, List.mem_append] at hx
  rcases hx with hx | hx
  · exact of_decide_eq_true (List.mem_filter.mp hx).2
  · rw [mem_concatMap] at hx
    obtain ⟨k, _, hk⟩ := hx
    exact (List.mem_filter.mp (List.mem_filter.mp hk).1).1

theorem graph_map_fst (registry : List (String × Stage)) (enabled : List String) :
    (build_dependency_graph registry enabled).map Prod.fst = graphKeys registry enabled := by
  rw [build_dependency_graph, graphKeys]
  exact concatMap_if_map_fst enabled (fun pr => depsOf registry enabled pr.1 pr.2) registry

theorem mem_graphKeys_iff (registry : List (String × Stage)) (enabled : List String)
    (x : String) :
    x ∈ graphKeys registry enabled ↔ x ∈ registry.map Prod.fst ∧ x ∈ enabled := by
  rw [graphKeys]
  constructor
  · intro h
    obtain ⟨pr, hpr, he⟩ := List.mem_map.mp h
    obtain ⟨h1, h2⟩ := List.mem_filter.mp hpr
    subst he
    exact ⟨List.mem_map_of_mem Prod.fst h1, of_decide_eq_true h2⟩
  · intro ⟨h1, h2⟩
    obtain ⟨pr, hpr, he⟩ := List.mem_map.mp h1
    subst he
    exact List.mem_map_of_mem Prod.fst (List.mem_filter.mpr ⟨hpr, by simpa using h2⟩)

theorem glook_build_subset (registry : List (String × Stage)) (enabled : List String)
    (s : String) :
    ∀ p ∈ glook (build_dependency_graph registry enabled) s,
      p ∈ graphKeys registry enabled := by
  intro p hp
  rw [glook] at hp
  cases hl : alookup (build_dependency_graph registry enabled) s with
  | none => rw [hl] at hp; simp at hp
  | some l =>
      rw [hl] at hp
      simp only [Option.getD_some] at hp
      have hmem := alookup_eq_some_mem hl
      rw [build_dependency_graph, mem_concatMap] at hmem
      obtain ⟨pr, _, hpr⟩ := hmem
      by_cases h : pr.1 ∈ enabled
      · rw [if_pos h] at hpr
        simp only [List.mem_singleton, Prod.mk.injEq] at hpr
        obtain ⟨h1, h2⟩ := hpr
        subst h2
        exact depsOf_subset_graphKeys registry enabled pr.1 pr.2 p hp
      · rw [if_neg h] at hpr
        simp at hpr

theorem mem_toposortNodes_iff (order : List String) (g : List (String × List String))
    (x : String) :
    x ∈ toposortNodes order g ↔ x ∈ order ∧ (alookup g x).isSome := by
  rw [toposortNodes]
  constructor
  · intro h
    exact ⟨(List.mem_filter.mp h).1, (List.mem_filter.mp h).2⟩
  · intro ⟨h1, h2⟩
    exact List.mem_filter.mpr ⟨h1, h2⟩

theorem toposortErrors_build_nil (registry : List (String × Stage)) (order : List String) :
    toposortErrors order (build_dependency_graph registry order) = [] := by
  rw [toposortErrors]
  rw [concatMap_eq_nil_iff]
  intro s hs
  rw [List.map_eq_nil_iff, List.filter_eq_nil_iff]
  intro p hp
  have hkeys := glook_build_subset registry order s p hp
  have h1 := (mem_graphKeys_iff registry order p).mp hkeys
  have h2 : p ∈ toposortNodes order (build_dependency_graph registry order) := by
    rw [mem_toposortNodes_iff]
    refine ⟨h1.2, ?_⟩
    rw [alookup_isSome_iff, graph_map_fst]
    exact hkeys
  simp [h2]

theorem toposort_build_error_is_cycle (registry : List (String × Stage))
    (order : List String) {es : List TopoError}
    (h : toposort_respecting_order order (build_dependency_graph registry order) =
      Except.error es) : es = [TopoError.cycle] := by
  rw [toposort_respecting_order] at h
  rw [toposortErrors_build_nil] at h
  rw [if_pos rfl] at h
  split at h
  · simp at h
  · injection h with h
    exact h.symm

theorem processNode_mem_queue (nodes : List String) (rem : String → Int)
    (queue : List String) (ms : List String) :
    ∀ x ∈ (processNode nodes rem queue ms).2, x ∈ queue ∨ x ∈ ms := by
  induction ms generalizing rem queue with
  | nil => intro x hx; exact Or.inl hx
  | cons m ms ih =>
      intro x hx
      rw [processNode] at hx
      rcases ih _ _ x hx with h | h
      · by_cases hz : rem m - 1 = 0
        · rw [if_pos hz] at h
          rw [sortQueue] at h
          rw [List.mem_insertionSort] at h
          rcases List.mem_append.mp h with h | h
          · exact Or.inl h
          · simp only [List.mem_singleton] at h
            exact Or.inr (h ▸ List.mem_cons_self m ms)
        · rw [if_neg hz] at h
          exact Or.inl h
      · exact Or.inr (List.mem_cons_of_mem m h)

theorem kahnLoop_mem (nodes : List String) (adj : String → List String)
    (hadj : ∀ n x, x ∈ adj n → x ∈ nodes) :
    ∀ (fuel : Nat) (queue : List String) (rem : String → Int) (out : List String),
      (∀ x ∈ queue, x ∈ nodes) → (∀ x ∈ out, x ∈ nodes) →
      ∀ x ∈ kahnLoop nodes adj fuel queue rem out, x ∈ nodes := by
  intro fuel
  induction fuel with
  | zero => intro queue rem out _ hout x hx; exact hout x hx
  | succ fuel ih =>
      intro queue rem out hq hout x hx
      cases queue with
      | nil => exact hout x (by simpa [kahnLoop] using hx)
      | cons n rest =>
          rw [kahnLoop] at hx
          refine ih _ _ _ ?_ ?_ x hx
          · intro y hy
            rcases processNode_mem_queue nodes rem rest (adj n) y hy with h | h
            · exact hq y (List.mem_cons_of_mem n h)
            · exact hadj n y h
          · intro y hy
            rcases List.mem_append.mp hy with h | h
            · exact hout y h
            · simp only [List.mem_singleton] at h
              exact h ▸ hq n (List.mem_cons_self n rest)

theorem toposort_ok_mem_nodes {order : List String} {g : List (String × List String)}
    {out : List String}
    (h : toposort_respecting_order order g = Except.ok out) :
    ∀ x ∈ out, x ∈ toposortNodes order g := by
  rw [toposort_respecting_order] at h
  by_cases herr : toposortErrors order g = []
  · rw [if_pos herr] at h
    split at h
    · injection h with h
      subst h
      rw [toposortOut]
      refine kahnLoop_mem _ _ ?_ _ _ _ _ ?_ ?_
      · intro n x hx
        exact List.mem_of_mem_filter hx
      · intro x hx
        exact List.mem_of_mem_filter hx
      · intro x hx
        simp at hx
    · simp at h
  · rw [if_neg herr] at h
    injection h

/-- Counterexample to C3 as stated: enabled stage `summarize` declares
`depends_on = ["enhance"]` with `enhance` disabled, yet the pipeline does
not fail with a structural configuration error naming the two stages —
validation passes, the dependency edge is silently dropped (the graph
entry of `summarize` is empty), the scheduler succeeds, and the run then
dies on the unrelated `RunContext` `TypeError`. -/
theorem C3_counterexample :
    validate_stage_inputs depDropRegistry (enabledOrderOf depDropEnv) = [] ∧
    glook (depGraphOf depDropEnv) "summarize" = [] ∧
    toposort_respecting_order (enabledOrderOf depDropEnv) (depGraphOf depDropEnv) =
      Except.ok ["summarize"] ∧
    (process_pipeline depDropEnv noRunImpl "V" "INC1" "T1" Option.none emptyState).result =
      Except.error PyError.typeError :=
  ⟨rfl, rfl, rfl, rfl⟩

/-- C3 (amended): an enabled stage's `depends_on` entry naming a stage
that is not itself an enabled registry stage is silently dropped when the
dependency graph is built — every stored prerequisite is an enabled
registry stage — and consequently the structural missing-prerequisite
error of `_toposort_respecting_order` can never surface through
`process_pipeline`: on this graph the scheduler either succeeds or fails
with the dependency-cycle error alone. -/
theorem C3_disabled_prereq_silently_dropped (registry : List (String × Stage))
    (order : List String) :
    (∀ s dep, ¬ dep ∈ graphKeys registry order →
      ¬ dep ∈ glook (build_dependency_graph registry order) s) ∧
    (∀ es, toposort_respecting_order order (build_dependency_graph registry order) =
      Except.error es → es = [TopoError.cycle]) := by
  constructor
  · intro s dep hdep hmem
    exact hdep (glook_build_subset registry order s dep hmem)
  · intro es h
    exact toposort_build_error_is_cycle registry order h

/-- Witness for C3 (amended) in the disabled-prerequisite scenario. -/
theorem C3_disabled_prereq_silently_dropped_witness :
    (¬ ("enhance" : String) ∈ graphKeys depDropRegistry (enabledOrderOf depDropEnv)) ∧
    (¬ ("enhance" : String) ∈
      glook (build_dependency_graph depDropRegistry (enabledOrderOf depDropEnv)) "summarize") :=
  ⟨by decide,
    (C3_disabled_prereq_silently_dropped depDropRegistry (enabledOrderOf depDropEnv)).1
      "summarize" "enhance" (by decide)⟩

theorem mem_availableOutputs_of_producer {registry : List (String × Stage)}
    {enabled : List String} {s : String} {stg : Stage} {k : String}
    (h : alookup registry s = Option.some stg) (he : s ∈ enabled) (hk : k ∈ stg.outputs) :
    k ∈ availableOutputs registry enabled := by
  rw [availableOutputs]
  refine List.mem_cons_of_mem _ ?_
  rw [mem_concatMap]
  exact ⟨(s, stg), List.mem_filter.mpr ⟨alookup_eq_some_mem h, by simpa using he⟩, hk⟩

theorem validate_error_key_not_available {registry : List (String × Stage)}
    {enabled : List String} {e : ValError}
    (h : e ∈ validate_stage_inputs registry enabled) :
    ¬ e.key ∈ availableOutputs registry enabled := by
  rw [validate_stage_inputs, mem_concatMap] at h
  obtain ⟨pr, _, hpr⟩ := h
  by_cases hen : pr.1 ∈ enabled
  · rw [if_pos hen] at hpr
    obtain ⟨k0, hk0, he⟩ := List.mem_map.mp hpr
    have := (List.mem_filter.mp hk0).2
    subst he
    simpa using this
  · rw [if_neg hen] at hpr
    simp at hpr

theorem alookup_concatMap_if {β : Type} (enabled : List String) (g : String × Stage → β)
    (l : List (String × Stage)) (c : String) (cstg : Stage)
    (hnd : (l.map Prod.fst).Nodup) (hc : alookup l c = Option.some cstg)
    (hen : c ∈ enabled) :
    alookup (concatMap (fun pr => if pr.1 ∈ enabled then [(pr.1, g pr)] else []) l) c =
      Option.some (g (c, cstg)) := by
  induction l with
  | nil => simp [alookup] at hc
  | cons pr rest ih =>
      obtain ⟨k2, v2⟩ := pr
      simp only [List.map_cons, List.nodup_cons] at hnd
      rw [concatMap]
      by_cases hk : k2 = c
      · subst hk
        rw [alookup, if_pos rfl] at hc
        injection hc with hc
        subst hc
        rw [if_pos (by simpa using hen)]
        simp [alookup]
      · rw [alookup, if_neg hk] at hc
        by_cases hen2 : k2 ∈ enabled
        · rw [if_pos (by simpa using hen2)]
          rw [List.singleton_append, alookup, if_neg hk]
          exact ih hnd.2 hc
        · rw [if_neg (by simpa using hen2), List.nil_append]
          exact ih hnd.2 hc

theorem build_graph_alookup {registry : List (String × Stage)} {enabled : List String}
    {c : String} {cstg : Stage}
    (hnd : (registry.map Prod.fst).Nodup) (hc : alookup registry c = Option.some cstg)
    (hen : c ∈ enabled) :
    alookup (build_dependency_graph registry enabled) c =
      Option.some (depsOf registry enabled c cstg) := by
  rw [build_dependency_graph]
  exact alookup_concatMap_if enabled (fun pr => depsOf registry enabled pr.1 pr.2)
    registry c cstg hnd hc hen

theorem mem_producersOf {registry : List (String × Stage)} {enabled : List String}
    {s : String} {stg : Stage} {k : String}
    (h : alookup registry s = Option.some stg) (he : s ∈ enabled) (hk : k ∈ stg.outputs) :
    s ∈ producersOf registry enabled k := by
  rw [producersOf]
  refine List.mem_filter.mpr ⟨?_, ?_⟩
  · rw [mem_graphKeys_iff]
    exact ⟨List.mem_map_of_mem Prod.fst (alookup_eq_some_mem h), he⟩
  · rw [h]
    simpa using hk

/-- C4 (amended): two distinct enabled stages declaring the same output
key are accepted, not rejected: the validator never reports an error about
that key (its errors only concern keys with no enabled producer), and both
producers become prerequisites of every enabled consumer of the key. -/
theorem C4_duplicate_producers_accepted (registry : List (String × Stage))
    (enabled : List String) (s1 s2 k : String) (stg1 stg2 : Stage)
    (h1 : alookup registry s1 = Option.some stg1)
    (h2 : alookup registry s2 = Option.some stg2)
    (he1 : s1 ∈ enabled) (he2 : s2 ∈ enabled)
    (hk1 : k ∈ stg1.outputs) (hk2 : k ∈ stg2.outputs) :
    (∀ e ∈ validate_stage_inputs registry enabled, e.key ≠ k) ∧
    (∀ c cstg, (registry.map Prod.fst).Nodup → alookup registry c = Option.some cstg →
      c ∈ enabled → k ∈ cstg.inputs → k ≠ "raw_vtt" → c ≠ s1 → c ≠ s2 →
      s1 ∈ glook (build_dependency_graph registry enabled) c ∧
      s2 ∈ glook (build_dependency_graph registry enabled) c) := by
  constructor
  · intro e he hcontra
    exact validate_error_key_not_available he
      (hcontra ▸ mem_availableOutputs_of_producer h1 he1 hk1)
  · intro c cstg hnd hc hcen hkin hkraw hcs1 hcs2
    have hg := build_graph_alookup hnd hc hcen
    have hdeps : ∀ s stgp, alookup registry s = Option.some stgp → s ∈ enabled →
        k ∈ stgp.outputs → s ≠ c → s ∈ depsOf registry enabled c cstg := by
      intro s stgp hs hsen hkout hsne
      rw [depsOf, List.mem_dedup, List.mem_append]
      refine Or.inr ?_
      rw [mem_concatMap]
      refine ⟨k, List.mem_filter.mpr ⟨hkin, by simpa using hkraw⟩, ?_⟩
      exact List.mem_filter.mpr ⟨mem_producersOf hs hsen hkout, by simpa using hsne⟩
    rw [glook, hg]
    exact ⟨hdeps s1 stg1 h1 he1 hk1 (fun he => hcs1 he.symm),
           hdeps s2 stg2 h2 he2 hk2 (fun he => hcs2 he.symm)⟩

/-- Witness for C4 (amended): `s1` and `s2` both produce `k`; the enabled
consumer `con` acquires both as prerequisites and validation is clean. -/
theorem C4_duplicate_producers_accepted_witness :
    (alookup dupOutRegistry "s1" =
      Option.some { name := "s1", inputs? := Option.some [], outputs? := Option.some ["k"] } ∧
     alookup dupOutRegistry "s2" =
      Option.some { name := "s2", inputs? := Option.some [], outputs? := Option.some ["k"] }) ∧
    (("s1" : String) ∈ glook
      (build_dependency_graph dupOutRegistry ["s1", "s2", "con"]) "con" ∧
     ("s2" : String) ∈ glook
      (build_dependency_graph dupOutRegistry ["s1", "s2", "con"]) "con") :=
  ⟨⟨rfl, rfl⟩,
    (C4_duplicate_producers_accepted dupOutRegistry ["s1", "s2", "con"] "s1" "s2" "k"
      { name := "s1", inputs? := Option.some [], outputs? := Option.some ["k"] }
      { name := "s2", inputs? := Option.some [], outputs? := Option.some ["k"] }
      rfl rfl (by decide) (by decide) (by decide) (by decide)).2
      "con" { name := "con", inputs? := Option.some ["k"], outputs? := Option.some [] }
      (by decide) rfl (by decide) (by decide) (by decide) (by decide) (by decide)⟩

/-- Counterexample to C4 as stated: two distinct enabled stages `s1` and
`s2` both declare output `k`, yet the pipeline does not treat this as a
configuration error: validation reports nothing, the scheduler succeeds,
and the run proceeds to the per-stage loop (dying on the unrelated
`RunContext` `TypeError`, not on any ambiguous-producer error). -/
theorem C4_counterexample :
    enabledOrderOf dupOutEnv = ["s1", "s2"] ∧
    validate_stage_inputs dupOutRegistry (enabledOrderOf dupOutEnv) = [] ∧
    toposort_respecting_order (enabledOrderOf dupOutEnv) (depGraphOf dupOutEnv) =
      Except.ok ["s1", "s2"] ∧
    (process_pipeline dupOutEnv noRunImpl "V" "INC1" "T1" Option.none emptyState).result =
      Except.error PyError.typeError :=
  ⟨rfl, rfl, rfl, rfl⟩

theorem run_stages_frame (env : PipelineEnv)
    (runImpl : String → RunContext → Except String StageOutput)
    (incidentId trcId : String) (names : List String) :
    ∀ (inc : IncidentDoc) (trc : Trc) (st : PipelineState)
      (logs : List StageLog) (executed : List String),
      (∀ r, (run_stages env runImpl incidentId trcId names inc trc st logs executed).result =
          Except.ok r → ∀ lg ∈ r.stage_logs, lg ∈ logs ∨ lg.stage ∈ names) ∧
      (∀ x ∈ (run_stages env runImpl incidentId trcId names inc trc st logs executed).executed,
        x ∈ executed ∨ x ∈ names) := by
  induction names with
  | nil =>
      intro inc trc st logs executed
      constructor
      · intro r hr lg hlg
        rw [run_stages] at hr
        injection hr with hr
        subst hr
        exact Or.inl hlg
      · intro x hx
        rw [run_stages] at hx
        exact Or.inl hx
  | cons stageName rest ih =>
      intro inc trc st logs executed
      have hlog : ∀ (l2 : List StageLog) (lg : StageLog), lg ∈ l2 ∨ lg.stage ∈ rest →
          (∀ lg2 ∈ l2, lg2 ∈ logs ∨ lg2.stage = stageName) →
          lg ∈ logs ∨ lg.stage ∈ stageName :: rest := by
        intro l2 lg h hsub
        rcases h with h | h
        · rcases hsub lg h with h2 | h2
          · exact Or.inl h2
          · exact Or.inr (h2 ▸ List.mem_cons_self _ _)
        · exact Or.inr (List.mem_cons_of_mem _ h)
      have hexe : ∀ (e2 : List String) (x : String), x ∈ e2 ∨ x ∈ rest →
          (∀ y ∈ e2, y ∈ executed ∨ y = stageName) →
          x ∈ executed ∨ x ∈ stageName :: rest := by
        intro e2 x h hsub
        rcases h with h | h
        · rcases hsub x h with h2 | h2
          · exact Or.inl h2
          · exact Or.inr (h2 ▸ List.mem_cons_self _ _)
        · exact Or.inr (List.mem_cons_of_mem _ h)
      cases halo : alookup env.registry stageName with
      | none =>
          constructor
          · intro r hr lg hlg
            rw [run_stages, halo] at hr
            refine hlog _ _ ((ih inc trc st _ executed).1 r hr lg hlg) ?_
            intro lg2 hlg2
            rcases List.mem_append.mp hlg2 with h | h
            · exact Or.inl h
            · simp only [List.mem_singleton] at h
              subst h
              exact Or.inr rfl
          · intro x hx
            rw [run_stages, halo] at hx
            rcases (ih inc trc st _ executed).2 x hx with h | h
            · exact Or.inl h
            · exact Or.inr (List.mem_cons_of_mem _ h)
      | some stage =>
          by_cases hm : (stage.inputs.filter
              (fun k => (alookup trc.pipeline_outputs k).isNone)).isEmpty
          · by_cases hic : dataclassInitOk runContextFields runContextRequired
                processPipelineCtxKwargs
            · cases hrun : runImpl stageName
                { incident_id := incidentId, trc_id := trcId,
                  incident := writeIncidentWithTrc inc trc, trc := trc,
                  data_dir := "data", incidents_dir := "data/incidents",
                  people_path := "data/people/people_directory.json",
                  artifacts_dir := "data/artifacts" } with
              | error e =>
                  constructor
                  · intro r hr lg hlg
                    rw [run_stages, halo] at hr
                    simp only [hm, if_true, hic, hrun] at hr
                    injection hr with hr
                    subst hr
                    simp only [mkResult] at hlg
                    rcases List.mem_append.mp hlg with h | h
                    · exact Or.inl h
                    · simp only [List.mem_singleton] at h
                      subst h
                      exact Or.inr (List.mem_cons_self _ _)
                  · intro x hx
                    rw [run_stages, halo] at hx
                    simp only [hm, if_true, hic, hrun] at hx
                    rcases List.mem_append.mp hx with h | h
                    · exact Or.inl h
                    · simp only [List.mem_singleton] at h
                      exact Or.inr (h ▸ List.mem_cons_self _ _)
              | ok out =>
                  constructor
                  · intro r hr lg hlg
                    rw [run_stages, halo] at hr
                    simp only [hm, if_true, hic, hrun] at hr
                    refine hlog _ _ ((ih _ _ _ _ _).1 r hr lg hlg) ?_
                    intro lg2 hlg2
                    rcases List.mem_append.mp hlg2 with h | h
                    · exact Or.inl h
                    · simp only [List.mem_singleton] at h
                      subst h
                      exact Or.inr rfl
                  · intro x hx
                    rw [run_stages, halo] at hx
                    simp only [hm, if_true, hic, hrun] at hx
                    refine hexe _ _ ((ih _ _ _ _ _).2 x hx) ?_
                    intro y hy
                    rcases List.mem_append.mp hy with h | h
                    · exact Or.inl h
                    · simp only [List.mem_singleton] at h
                      exact Or.inr h
            · constructor
              · intro r hr lg hlg
                rw [run_stages, halo] at hr
                simp only [hm, if_true, hic] at hr
                simp at hr
              · intro x hx
                rw [run_stages, halo] at hx
                simp only [hm, if_true, hic, ite_false, ite_true] at hx
                exact Or.inl hx
          · constructor
            · intro r hr lg hlg
              rw [run_stages, halo] at hr
              simp only [hm, if_false] at hr
              injection hr with hr
              subst hr
              simp only [mkResult] at hlg
              rcases List.mem_append.mp hlg with h | h
              · exact Or.inl h
              · simp only [List.mem_singleton] at h
                subst h
                exact Or.inr (List.mem_cons_self _ _)
            · intro x hx
              rw [run_stages, halo] at hx
              simp only [hm, if_false] at hx
              exact Or.inl hx

theorem not_mem_toposort_ok_of_not_registry {env : PipelineEnv} {u : String}
    (hu : alookup env.registry u = Option.none) :
    ∀ ord, toposort_respecting_order (enabledOrderOf env) (depGraphOf env) =
      Except.ok ord → ¬ u ∈ ord := by
  intro ord h hmem
  have h1 := toposort_ok_mem_nodes h u hmem
  rw [mem_toposortNodes_iff] at h1
  have h2 := h1.2
  rw [alookup_isSome_iff, depGraphOf, graph_map_fst, mem_graphKeys_iff] at h2
  have h3 := (alookup_isSome_iff env.registry u).mpr h2.1
  rw [hu] at h3
  simp at h3

/-- C6 (amended): a name in the configured (enabled) order that is not
resolvable in the registry is non-fatal, but it is *silently dropped* by
the node restriction of the scheduler rather than logged: it never appears
in the final computed order, no stage-log entry (in particular no
"Skipped" entry) ever carries its name, and it is never executed; the run
simply continues with the remaining stages.  (The "Skipped" branch of the
per-stage loop is unreachable through `process_pipeline`, because the loop
only ever sees names the scheduler kept, all of which resolve in the
registry.) -/
theorem C6_unknown_stage_silently_dropped (env : PipelineEnv)
    (runImpl : String → RunContext → Except String StageOutput)
    (vtt incId iso : String) (sS : Option String) (st : PipelineState) (u : String)
    (hu : alookup env.registry u = Option.none) (hcfg : u ≠ "config") :
    (∀ ord, toposort_respecting_order (enabledOrderOf env) (depGraphOf env) =
      Except.ok ord → ¬ u ∈ ord) ∧
    (∀ r, (process_pipeline env runImpl vtt incId iso sS st).result = Except.ok r →
      ∀ lg ∈ r.stage_logs, lg.stage ≠ u) ∧
    (¬ u ∈ (process_pipeline env runImpl vtt incId iso sS st).executed) := by
  refine ⟨not_mem_toposort_ok_of_not_registry hu, ?_, ?_⟩
  · intro r hr lg hlg
    by_cases hval : validate_stage_inputs env.registry (enabledOrderOf env) = []
    · cases htopo : toposort_respecting_order (enabledOrderOf env) (depGraphOf env) with
      | error errs =>
          simp only [process_pipeline, hval, if_true, htopo] at hr
          injection hr with hr
          subst hr
          simp only [configFailure, List.mem_singleton] at hlg
          subst hlg
          exact fun he => hcfg he.symm
      | ok ord =>
          simp only [process_pipeline, hval, if_true, htopo] at hr
          have hframe := (run_stages_frame env runImpl incId ("trc_" ++ iso)
            (ord.drop (resolve_start_index (depGraphOf env) ord sS))
            (setupDocs vtt incId iso st).1 (setupDocs vtt incId iso st).2.1
            (setupDocs vtt incId iso st).2.2 [] []).1 r hr lg hlg
          rcases hframe with h | h
          · simp at h
          · intro he
            exact not_mem_toposort_ok_of_not_registry hu ord htopo
              (List.mem_of_mem_drop (he ▸ h))
    · simp only [process_pipeline, hval, if_false, ite_false] at hr
      injection hr with hr
      subst hr
      simp only [configFailure, List.mem_singleton] at hlg
      subst hlg
      exact fun he => hcfg he.symm
  · intro hx
    by_cases hval : validate_stage_inputs env.registry (enabledOrderOf env) = []
    · cases htopo : toposort_respecting_order (enabledOrderOf env) (depGraphOf env) with
      | error errs =>
          simp only [process_pipeline, hval, if_true, htopo] at hx
          simp at hx
      | ok ord =>
          simp only [process_pipeline, hval, if_true, htopo] at hx
          have hframe := (run_stages_frame env runImpl incId ("trc_" ++ iso)
            (ord.drop (resolve_start_index (depGraphOf env) ord sS))
            (setupDocs vtt incId iso st).1 (setupDocs vtt incId iso st).2.1
            (setupDocs vtt incId iso st).2.2 [] []).2 u hx
          rcases hframe with h | h
          · simp at h
          · exact not_mem_toposort_ok_of_not_registry hu ord htopo
              (List.mem_of_mem_drop h)
    · simp only [process_pipeline, hval, if_false, ite_false] at hx
      simp at hx

/-- Witness for C6 (amended) in the ghost-stage scenario. -/
theorem C6_unknown_stage_silently_dropped_witness :
    (alookup ghostEnv.registry "ghost" = Option.none ∧ ("ghost" : String) ≠ "config") ∧
    (¬ ("ghost" : String) ∈
      (process_pipeline ghostEnv noRunImpl "V" "INC1" "T1" Option.none emptyState).executed) :=
  ⟨⟨rfl, by decide⟩,
    (C6_unknown_stage_silently_dropped ghostEnv noRunImpl "V" "INC1" "T1" Option.none
      emptyState "ghost" rfl (by decide)).2.2⟩

/-- Counterexample to C6 as stated: the configured order consists of the
single unresolvable name `ghost`; the run succeeds with an *empty*
stage-log list — there is no "Skipped" entry for `ghost` (nor any entry at
all), contradicting the claim that such an entry is logged. -/
theorem C6_counterexample :
    (alookup ghostEnv.registry "ghost" = Option.none) ∧
    enabledOrderOf ghostEnv = ["ghost"] ∧
    (process_pipeline ghostEnv noRunImpl "V" "INC1" "T1" Option.none emptyState).result =
      Except.ok { incident_id := "INC1", trc_id := "trc_T1", stage_logs := [],
                  success := true, failed_stage := Option.none } :=
  ⟨rfl, rfl, rfl⟩

theorem builtin_no_transcription_parsing_output :
    ∀ pr ∈ builtinRegistry, ¬ "transcription_parsing" ∈ pr.2.outputs := by decide

theorem transcription_parsing_not_available (enabled : List String) :
    ¬ "transcription_parsing" ∈ availableOutputs builtinRegistry enabled := by
  intro h
  rw [availableOutputs] at h
  rcases List.mem_cons.mp h with h | h
  · exact absurd h (by decide)
  · rw [mem_concatMap] at h
    obtain ⟨pr, hpr, hout⟩ := h
    exact builtin_no_transcription_parsing_output pr (List.mem_of_mem_filter hpr) hout

theorem builtin_validate_error_mem {enabled : List String} {s : String} {stg : Stage}
    (hs : s ∈ enabled) (hlook : alookup builtinRegistry s = Option.some stg)
    (hinp : "transcription_parsing" ∈ stg.inputs) :
    ValError.mk s "transcription_parsing" ∈ validate_stage_inputs builtinRegistry enabled := by
  rw [validate_stage_inputs, mem_concatMap]
  refine ⟨(s, stg), alookup_eq_some_mem hlook, ?_⟩
  rw [if_pos hs]
  refine List.mem_map.mpr ⟨"transcription_parsing", ?_, rfl⟩
  exact List.mem_filter.mpr ⟨hinp, by simpa using transcription_parsing_not_available enabled⟩

/-- C10: under the built-in registry, `TranscriptionParsingStage` declares
only `requires` and none of the `inputs`/`outputs`/`depends_on` attributes
the core reads, so no enabled stage produces the key
`transcription_parsing`; any enabled set containing a registry stage whose
inputs include that key (such as `text_enhancement`) makes
`process_pipeline` return the synthetic config failure from input
validation, and no stage is executed. -/
theorem C10_missing_producer_config_failure (env : PipelineEnv)
    (runImpl : String → RunContext → Except String StageOutput)
    (vtt incId iso : String) (sS : Option String) (st : PipelineState)
    (s : String) (stg : Stage)
    (hreg : env.registry = builtinRegistry)
    (hs : s ∈ enabledOrderOf env)
    (hlook : alookup builtinRegistry s = Option.some stg)
    (hinp : "transcription_parsing" ∈ stg.inputs) :
    (alookup builtinRegistry "transcription_parsing" =
      Option.some { name := "transcription_parsing",
                    requires? := Option.some ["raw_vtt"] }) ∧
    validate_stage_inputs env.registry (enabledOrderOf env) ≠ [] ∧
    (process_pipeline env runImpl vtt incId iso sS st).result =
      Except.ok (configFailure incId ("trc_" ++ iso)
        ((validate_stage_inputs env.registry (enabledOrderOf env)).map
          (fun e => LogMsg.missingInputProducer e.stage e.key))) ∧
    (process_pipeline env runImpl vtt incId iso sS st).executed = [] := by
  have hval : validate_stage_inputs env.registry (enabledOrderOf env) ≠ [] := by
    rw [hreg]
    intro hnil
    have := builtin_validate_error_mem hs hlook hinp
    rw [hnil] at this
    simp at this
  refine ⟨rfl, hval, ?_, ?_⟩
  · simp only [process_pipeline, hval, if_false, ite_false]
  · simp only [process_pipeline, hval, if_false, ite_false]

/-- Witness for C10: the default configuration (all seven default stages
enabled over the built-in registry) is rejected by validation because
`text_enhancement` consumes `transcription_parsing`; no stage executes. -/
theorem C10_missing_producer_config_failure_witness :
    (defaultEnv.registry = builtinRegistry ∧
     ("text_enhancement" : String) ∈ enabledOrderOf defaultEnv ∧
     alookup builtinRegistry "text_enhancement" =
       Option.some { name := "text_enhancement",
                     inputs? := Option.some ["transcription_parsing"],
                     outputs? := Option.some ["text_enhancement"],
                     dependsOn? := Option.some [] } ∧
     ("transcription_parsing" : String) ∈
       (Stage.inputs { name := "text_enhancement",
                       inputs? := Option.some ["transcription_parsing"],
                       outputs? := Option.some ["text_enhancement"],
                       dependsOn? := Option.some [] })) ∧
    ((process_pipeline defaultEnv noRunImpl "WEBVTT" "INC1" "T1" Option.none
        emptyState).result =
      Except.ok (configFailure "INC1" ("trc_" ++ "T1")
        ((validate_stage_inputs defaultEnv.registry (enabledOrderOf defaultEnv)).map
          (fun e => LogMsg.missingInputProducer e.stage e.key))) ∧
     (process_pipeline defaultEnv noRunImpl "WEBVTT" "INC1" "T1" Option.none
        emptyState).executed = []) :=
  ⟨⟨rfl, by decide, rfl, by decide⟩,
    (C10_missing_producer_config_failure defaultEnv noRunImpl "WEBVTT" "INC1" "T1"
      Option.none emptyState "text_enhancement"
      { name := "text_enhancement", inputs? := Option.some ["transcription_parsing"],
        outputs? := Option.some ["text_enhancement"], dependsOn? := Option.some [] }
      rfl (by decide) rfl (by decide)).2.2⟩

theorem setupDocs_people (vtt incId iso : String) (st : PipelineState) :
    (setupDocs vtt incId iso st).2.2.people = st.people := by
  rw [setupDocs]
  cases findTrc (st.incident?.getD (initialIncident incId)) ("trc_" ++ iso) <;> rfl

theorem setupDocs_existing {vtt incId iso : String} {st : PipelineState}
    {inc0 : IncidentDoc} {t : Trc}
    (h1 : st.incident? = Option.some inc0)
    (h2 : findTrc inc0 ("trc_" ++ iso) = Option.some t) :
    setupDocs vtt incId iso st = (inc0, t, st) := by
  rw [setupDocs, h1]
  simp only [Option.getD_some]
  rw [h2]

theorem setupDocs_new_trc {vtt incId iso : String} {st : PipelineState}
    {inc0 : IncidentDoc}
    (h1 : st.incident? = Option.some inc0)
    (h2 : findTrc inc0 ("trc_" ++ iso) = Option.none) :
    setupDocs vtt incId iso st =
      ({ inc0 with trcs := inc0.trcs ++ [newTrc ("trc_" ++ iso) iso vtt] },
       newTrc ("trc_" ++ iso) iso vtt,
       { st with incident? := Option.some { inc0 with trcs := inc0.trcs ++ [newTrc ("trc_" ++ iso) iso vtt] } }) := by
  rw [setupDocs, h1]
  simp only [Option.getD_some]
  rw [h2]

theorem setupDocs_no_incident {vtt incId iso : String} {st : PipelineState}
    (h1 : st.incident? = Option.none) :
    setupDocs vtt incId iso st =
      ({ initialIncident incId with trcs := [newTrc ("trc_" ++ iso) iso vtt] },
       newTrc ("trc_" ++ iso) iso vtt,
       { st with incident? := Option.some { initialIncident incId with trcs := [newTrc ("trc_" ++ iso) iso vtt] } }) := by
  rw [setupDocs, h1]
  simp only [Option.getD_none]
  have h2 : findTrc (initialIncident incId) ("trc_" ++ iso) = Option.none := rfl
  rw [h2]
  rfl

/-- C2 (amended): a configuration-error run (validation failure or
scheduler error) returns the synthetic failed "config" result, executes no
stage, and leaves the people directory untouched; however, the incident
document is read-or-created and the call document is created *before*
validation, so for a never-seen (incident, call-timestamp) pair the
failing invocation does persist a fresh call document (for an
already-seen pair nothing is mutated). -/
theorem C2_config_failure_state (env : PipelineEnv)
    (runImpl : String → RunContext → Except String StageOutput)
    (vtt incId iso : String) (sS : Option String) (st : PipelineState)
    (hcfg : validate_stage_inputs env.registry (enabledOrderOf env) ≠ [] ∨
      ∃ errs, toposort_respecting_order (enabledOrderOf env) (depGraphOf env) =
        Except.error errs) :
    (∃ r, (process_pipeline env runImpl vtt incId iso sS st).result = Except.ok r ∧
      r.success = false ∧ r.failed_stage = Option.some "config" ∧
      (∀ lg ∈ r.stage_logs, lg.stage = "config" ∧ lg.status = "Failed")) ∧
    (process_pipeline env runImpl vtt incId iso sS st).executed = [] ∧
    (process_pipeline env runImpl vtt incId iso sS st).state =
      (setupDocs vtt incId iso st).2.2 ∧
    (process_pipeline env runImpl vtt incId iso sS st).state.people = st.people ∧
    (∀ inc0 t, st.incident? = Option.some inc0 →
      findTrc inc0 ("trc_" ++ iso) = Option.some t →
      (process_pipeline env runImpl vtt incId iso sS st).state = st) ∧
    (st.incident? = Option.none →
      (process_pipeline env runImpl vtt incId iso sS st).state.incident? =
        Option.some { initialIncident incId with trcs := [newTrc ("trc_" ++ iso) iso vtt] }) ∧
    (∀ inc0, st.incident? = Option.some inc0 →
      findTrc inc0 ("trc_" ++ iso) = Option.none →
      (process_pipeline env runImpl vtt incId iso sS st).state.incident? =
        Option.some { inc0 with trcs := inc0.trcs ++ [newTrc ("trc_" ++ iso) iso vtt] }) := by
  have hstate : (process_pipeline env runImpl vtt incId iso sS st).state =
      (setupDocs vtt incId iso st).2.2 ∧
      (∃ r, (process_pipeline env runImpl vtt incId iso sS st).result = Except.ok r ∧
        r.success = false ∧ r.failed_stage = Option.some "config" ∧
        (∀ lg ∈ r.stage_logs, lg.stage = "config" ∧ lg.status = "Failed")) ∧
      (process_pipeline env runImpl vtt incId iso sS st).executed = [] := by
    by_cases hval : validate_stage_inputs env.registry (enabledOrderOf env) = []
    · have htopo : ∃ errs, toposort_respecting_order (enabledOrderOf env)
          (depGraphOf env) = Except.error errs := by
        rcases hcfg with h | h
        · exact absurd hval h
        · exact h
      obtain ⟨errs, htopo⟩ := htopo
      refine ⟨?_, ⟨configFailure incId ("trc_" ++ iso) [LogMsg.topoFailure errs],
        ?_, rfl, rfl, ?_⟩, ?_⟩
      · simp only [process_pipeline, hval, if_true, htopo]
      · simp only [process_pipeline, hval, if_true, htopo]
      · intro lg hlg
        simp only [configFailure, List.mem_singleton] at hlg
        subst hlg
        exact ⟨rfl, rfl⟩
      · simp only [process_pipeline, hval, if_true, htopo]
    · refine ⟨?_, ⟨configFailure incId ("trc_" ++ iso)
        ((validate_stage_inputs env.registry (enabledOrderOf env)).map
          (fun e => LogMsg.missingInputProducer e.stage e.key)), ?_, rfl, rfl, ?_⟩, ?_⟩
      · simp only [process_pipeline, hval, if_false, ite_false]
      · simp only [process_pipeline, hval, if_false, ite_false]
      · intro lg hlg
        simp only [configFailure, List.mem_singleton] at hlg
        subst hlg
        exact ⟨rfl, rfl⟩
      · simp only [process_pipeline, hval, if_false, ite_false]
  refine ⟨hstate.2.1, hstate.2.2, hstate.1, ?_, ?_, ?_, ?_⟩
  · rw [hstate.1]
    exact setupDocs_people vtt incId iso st
  · intro inc0 t h1 h2
    rw [hstate.1, setupDocs_existing h1 h2]
  · intro h1
    rw [hstate.1, setupDocs_no_incident h1]
  · intro inc0 h1 h2
    rw [hstate.1, setupDocs_new_trc h1 h2]

/-- Witness for C2 (amended): the default configuration fails validation;
with no pre-existing incident file the failing run creates and persists
the incident document containing the fresh call document. -/
theorem C2_config_failure_state_witness :
    (validate_stage_inputs defaultEnv.registry (enabledOrderOf defaultEnv) ≠ [] ∨
      ∃ errs, toposort_respecting_order (enabledOrderOf defaultEnv)
        (depGraphOf defaultEnv) = Except.error errs) ∧
    (emptyState.incident? = Option.none →
      (process_pipeline defaultEnv noRunImpl "WEBVTT" "INC1" "T1" Option.none
        emptyState).state.incident? =
        Option.some { initialIncident "INC1" with trcs := [newTrc ("trc_" ++ "T1") "T1" "WEBVTT"] }) :=
  ⟨Or.inl (by decide),
    (C2_config_failure_state defaultEnv noRunImpl "WEBVTT" "INC1" "T1" Option.none
      emptyState (Or.inl (by decide))).2.2.2.2.2.1⟩

/-- Counterexample to C2 as stated: a configuration-error invocation for
a never-seen (incident, call-timestamp) pair *does* create and persist a
new call document — the failure result with the synthetic "config" log is
returned, yet the final incident document holds the fresh call document
with the raw input. -/
theorem C2_counterexample :
    validate_stage_inputs defaultEnv.registry (enabledOrderOf defaultEnv) =
      [ValError.mk "text_enhancement" "transcription_parsing"] ∧
    emptyState.incident? = Option.none ∧
    (process_pipeline defaultEnv noRunImpl "WEBVTT" "INC1" "T1" Option.none
      emptyState).result =
      Except.ok (configFailure "INC1" "trc_T1"
        [LogMsg.missingInputProducer "text_enhancement" "transcription_parsing"]) ∧
    (process_pipeline defaultEnv noRunImpl "WEBVTT" "INC1" "T1" Option.none
      emptyState).state.incident? =
      Option.some { initialIncident "INC1" with trcs := [newTrc "trc_T1" "T1" "WEBVTT"] } :=
  ⟨rfl, rfl, rfl, rfl⟩

theorem run_context_kwargs_rejected :
    dataclassInitOk runContextFields runContextRequired processPipelineCtxKwargs = false := by
  decide

theorem toposort_ok_registry_lookup {env : PipelineEnv} {ord : List String}
    (h : toposort_respecting_order (enabledOrderOf env) (depGraphOf env) = Except.ok ord) :
    ∀ x ∈ ord, (alookup env.registry x).isSome := by
  intro x hx
  have h1 := toposort_ok_mem_nodes h x hx
  rw [mem_toposortNodes_iff] at h1
  have h2 := h1.2
  rw [alookup_isSome_iff, depGraphOf, graph_map_fst, mem_graphKeys_iff] at h2
  exact (alookup_isSome_iff env.registry x).mpr h2.1

theorem run_stages_first_step (env : PipelineEnv)
    (runImpl : String → RunContext → Except String StageOutput)
    (incidentId trcId first : String) (rest : List String)
    (inc : IncidentDoc) (trc : Trc) (st : PipelineState) (stage : Stage)
    (hstg : alookup env.registry first = Option.some stage) :
    (run_stages env runImpl incidentId trcId (first :: rest) inc trc st [] []).executed
      = [] ∧
    ((∀ k ∈ stage.inputs, (alookup trc.pipeline_outputs k).isSome) →
      (run_stages env runImpl incidentId trcId (first :: rest) inc trc st [] []).result =
        Except.error PyError.typeError) := by
  by_cases hm : (stage.inputs.filter
      (fun k => (alookup trc.pipeline_outputs k).isNone)).isEmpty
  · constructor
    · rw [run_stages, hstg]
      simp only [hm, if_true, run_context_kwargs_rejected]
      simp
    · intro _
      rw [run_stages, hstg]
      simp only [hm, if_true, run_context_kwargs_rejected]
      simp
  · constructor
    · rw [run_stages, hstg]
      simp [hm]
    · intro hin
      exfalso
      apply hm
      rw [List.isEmpty_iff, List.filter_eq_nil_iff]
      intro k hk
      have := hin k hk
      simp only [Option.isNone_iff_eq_none]
      intro hn
      rw [hn] at this
      simp at this

/-- C1 (amended): in every invocation of `process_pipeline` in which input
validation and topological ordering succeed and at least one stage remains
from the resolved start index, no stage ever executes; and whenever the
first remaining stage's declared inputs are all present in the call
document (so that the runtime data-availability guard passes — e.g. in any
fresh run whose first stage declares no inputs), constructing the
per-stage `RunContext` raises `TypeError` (the call passes the
`llm_config` keyword, which the dataclass does not declare) outside the
`try`/`except`, and `process_pipeline` raises instead of returning a
`PipelineResult`.  (If the guard fails instead, `process_pipeline` returns
a failure `PipelineResult` naming that stage — see the counterexample —
which is why the input-availability proviso is needed.) -/
theorem C1_run_context_type_error (env : PipelineEnv)
    (runImpl : String → RunContext → Except String StageOutput)
    (vtt incId iso : String) (sS : Option String) (st : PipelineState)
    (ord : List String)
    (hval : validate_stage_inputs env.registry (enabledOrderOf env) = [])
    (htopo : toposort_respecting_order (enabledOrderOf env) (depGraphOf env) =
      Except.ok ord)
    (hlt : resolve_start_index (depGraphOf env) ord sS < ord.length) :
    (process_pipeline env runImpl vtt incId iso sS st).executed = [] ∧
    (∀ stg, alookup env.registry (ord.get ⟨resolve_start_index (depGraphOf env) ord sS, hlt⟩)
        = Option.some stg →
      (∀ k ∈ stg.inputs,
        (alookup (setupDocs vtt incId iso st).2.1.pipeline_outputs k).isSome) →
      (process_pipeline env runImpl vtt incId iso sS st).result =
        Except.error PyError.typeError) := by
  have hdrop : ord.drop (resolve_start_index (depGraphOf env) ord sS) =
      ord.get ⟨resolve_start_index (depGraphOf env) ord sS, hlt⟩ ::
        ord.drop (resolve_start_index (depGraphOf env) ord sS + 1) :=
    (@List.cons_get_drop_succ String ord ⟨resolve_start_index (depGraphOf env) ord sS, hlt⟩).symm
  have hsome : (alookup env.registry
      (ord.get ⟨resolve_start_index (depGraphOf env) ord sS, hlt⟩)).isSome :=
    toposort_ok_registry_lookup htopo _ (ord.get_mem _ hlt)
  obtain ⟨stage0, hstage0⟩ := Option.isSome_iff_exists.mp hsome
  constructor
  · simp only [process_pipeline, hval, if_true, htopo]
    rw [hdrop]
    exact (run_stages_first_step env runImpl incId ("trc_" ++ iso) _ _ _ _ _ stage0
      hstage0).1
  · intro stg hstg hin
    simp only [process_pipeline, hval, if_true, htopo]
    rw [hdrop]
    exact (run_stages_first_step env runImpl incId ("trc_" ++ iso) _ _ _ _ _ stg
      hstg).2 hin

/-- Witness for C1 (amended): the built-in registry with only
`master_summary_synthesis` enabled validates, schedules one stage with no
declared inputs, and the run escapes with the `RunContext` `TypeError`
before any stage executes. -/
theorem C1_run_context_type_error_witness :
    (validate_stage_inputs builtinRegistry ["master_summary_synthesis"] = [] ∧
     toposort_respecting_order
       (enabledOrderOf { registry := builtinRegistry,
                         pipelineOrder := ["master_summary_synthesis"],
                         stageEnabled := [] })
       (depGraphOf { registry := builtinRegistry,
                     pipelineOrder := ["master_summary_synthesis"],
                     stageEnabled := [] }) = Except.ok ["master_summary_synthesis"]) ∧
    ((process_pipeline { registry := builtinRegistry,
                         pipelineOrder := ["master_summary_synthesis"],
                         stageEnabled := [] } noRunImpl "WEBVTT" "INC1" "T1" Option.none
        emptyState).executed = [] ∧
     (process_pipeline { registry := builtinRegistry,
                         pipelineOrder := ["master_summary_synthesis"],
                         stageEnabled := [] } noRunImpl "WEBVTT" "INC1" "T1" Option.none
        emptyState).result = Except.error PyError.typeError) := by
  have h := C1_run_context_type_error
    { registry := builtinRegistry, pipelineOrder := ["master_summary_synthesis"],
      stageEnabled := [] } noRunImpl "WEBVTT" "INC1" "T1" Option.none emptyState
    ["master_summary_synthesis"] rfl rfl (by decide)
  refine ⟨⟨rfl, rfl⟩, h.1, ?_⟩
  exact h.2 { name := "master_summary_synthesis", inputs? := Option.some [],
              outputs? := Option.some ["master_summary_synthesis"],
              dependsOn? := Option.some ["summarisation"] } (by decide) (by decide)

/-- Counterexample to C1 as stated: a registry stage declaring the same
key as input and output validates and schedules (the self data-dependency
is dropped), one stage remains at the resolved start index, yet
`process_pipeline` *returns* a failure `PipelineResult` from the runtime
input-availability guard instead of raising: the `TypeError` is never
reached because the guard fires first. -/
theorem C1_counterexample :
    validate_stage_inputs selfLoopRegistry (enabledOrderOf selfLoopEnv) = [] ∧
    toposort_respecting_order (enabledOrderOf selfLoopEnv) (depGraphOf selfLoopEnv) =
      Except.ok ["c"] ∧
    resolve_start_index (depGraphOf selfLoopEnv) ["c"] Option.none = 0 ∧
    (process_pipeline selfLoopEnv noRunImpl "V" "INC1" "T1" Option.none
      emptyState).result =
      Except.ok { incident_id := "INC1", trc_id := "trc_T1",
                  stage_logs := [{ stage := "c", status := "Failed",
                                   messages := [LogMsg.missingRequiredInputs ["k"]] }],
                  success := false, failed_stage := Option.some "c" } ∧
    (process_pipeline selfLoopEnv noRunImpl "V" "INC1" "T1" Option.none
      emptyState).result ≠ Except.error PyError.typeError := by
  have h4 : (process_pipeline selfLoopEnv noRunImpl "V" "INC1" "T1" Option.none
      emptyState).result =
      Except.ok { incident_id := "INC1", trc_id := "trc_T1",
                  stage_logs := [{ stage := "c", status := "Failed",
                                   messages := [LogMsg.missingRequiredInputs ["k"]] }],
                  success := false, failed_stage := Option.some "c" } := rfl
  refine ⟨rfl, rfl, rfl, h4, ?_⟩
  rw [h4]
  simp

theorem list_exists_min_image (l : List String) (f : String → Nat) (h : l ≠ []) :
    ∃ m ∈ l, ∀ y ∈ l, f m ≤ f y := by
  induction l with
  | nil => exact absurd rfl h
  | cons a l ih =>
      cases l with
      | nil =>
          refine ⟨a, List.mem_cons_self a [], ?_⟩
          intro y hy
          rcases List.mem_cons.mp hy with hy | hy
          · subst hy; exact Nat.le_refl _
          · simp at hy
      | cons b l2 =>
          obtain ⟨m, hm, hmin⟩ := ih (by simp)
          by_cases hfa : f a ≤ f m
          · refine ⟨a, List.mem_cons_self a _, ?_⟩
            intro y hy
            rcases List.mem_cons.mp hy with hy | hy
            · subst hy; exact Nat.le_refl _
            · exact Nat.le_trans hfa (hmin y hy)
          · refine ⟨m, List.mem_cons_of_mem a hm, ?_⟩
            intro y hy
            rcases List.mem_cons.mp hy with hy | hy
            · subst hy; exact Nat.le_of_lt (Nat.lt_of_not_le hfa)
            · exact hmin y hy

theorem length_lt_of_nodup_missing {out nodes : List String}
    (h1 : out.Nodup) (h2 : nodes.Nodup) (h3 : ∀ x ∈ out, x ∈ nodes)
    {x : String} (hx : x ∈ nodes) (hnx : ¬ x ∈ out) : out.length < nodes.length := by
  have hc1 : out.toFinset.card = out.length := List.toFinset_card_of_nodup h1
  have hc2 : nodes.toFinset.card = nodes.length := List.toFinset_card_of_nodup h2
  rw [← hc1, ← hc2]
  apply Finset.card_lt_card
  rw [Finset.ssubset_iff_of_subset]
  · exact ⟨x, List.mem_toFinset.mpr hx, fun hmem => hnx (List.mem_toFinset.mp hmem)⟩
  · intro y hy
    exact List.mem_toFinset.mpr (h3 y (List.mem_toFinset.mp hy))

theorem mem_toposortAdj (nodes : List String) (g : List (String × List String))
    (n m : String) :
    m ∈ toposortAdj nodes g n ↔ m ∈ nodes ∧ n ∈ glook g m := by
  rw [toposortAdj]
  constructor
  · intro h
    exact ⟨(List.mem_filter.mp h).1, of_decide_eq_true (List.mem_filter.mp h).2⟩
  · intro ⟨h1, h2⟩
    exact List.mem_filter.mpr ⟨h1, by simpa using h2⟩

theorem sortQueue_mem (nodes : List String) (q : List String) (x : String) :
    x ∈ sortQueue nodes q ↔ x ∈ q := by
  rw [sortQueue]
  exact List.mem_insertionSort _

theorem sortQueue_nodup (nodes : List String) (q : List String) (h : q.Nodup) :
    (sortQueue nodes q).Nodup := by
  rw [sortQueue]
  exact (List.perm_insertionSort _ _).nodup_iff.mpr h

theorem processNode_spec (nodes : List String) :
    ∀ (ms : List String) (rem : String → Int) (queue : List String),
      ms.Nodup →
      (∀ m2 ∈ ms, m2 ∈ queue → ¬ rem m2 = 1) →
      (∀ x, (processNode nodes rem queue ms).1 x =
        if x ∈ ms then rem x - 1 else rem x) ∧
      (∀ x, x ∈ (processNode nodes rem queue ms).2 ↔
        x ∈ queue ∨ (x ∈ ms ∧ rem x = 1)) ∧
      (queue.Nodup → (processNode nodes rem queue ms).2.Nodup) := by
  intro ms
  induction ms with
  | nil =>
      intro rem queue _ _
      refine ⟨?_, ?_, ?_⟩
      · intro x; simp [processNode]
      · intro x; simp [processNode]
      · intro h; simpa [processNode] using h
  | cons m ms ih =>
      intro rem queue hnd hq
      rw [List.nodup_cons] at hnd
      have hq2 : ∀ m2 ∈ ms,
          m2 ∈ (if rem m - 1 = 0 then sortQueue nodes (queue ++ [m]) else queue) →
          ¬ (fun x => if x = m then rem m - 1 else rem x) m2 = 1 := by
        intro m2 hm2 hmem
        have hne : m2 ≠ m := fun he => hnd.1 (he ▸ hm2)
        simp only [if_neg hne]
        by_cases hz : rem m - 1 = 0
        · rw [if_pos hz, sortQueue_mem] at hmem
          rcases List.mem_append.mp hmem with h | h
          · exact hq m2 (List.mem_cons_of_mem m hm2) h
          · simp only [List.mem_singleton] at h
            exact absurd h hne
        · rw [if_neg hz] at hmem
          exact hq m2 (List.mem_cons_of_mem m hm2) hmem
      obtain ⟨ihrem, ihmem, ihnd⟩ := ih (fun x => if x = m then rem m - 1 else rem x)
        (if rem m - 1 = 0 then sortQueue nodes (queue ++ [m]) else queue) hnd.2 hq2
      refine ⟨?_, ?_, ?_⟩
      · intro x
        rw [processNode, ihrem x]
        by_cases hx : x = m
        · subst hx
          rw [if_neg hnd.1, if_pos (List.mem_cons_self x ms)]
          simp
        · by_cases hxs : x ∈ ms
          · rw [if_pos hxs, if_pos (List.mem_cons_of_mem m hxs)]
            simp [hx]
          · rw [if_neg hxs, if_neg (by simp [hx, hxs])]
            simp [hx, hxs]
      · intro x
        rw [processNode, ihmem x]
        by_cases hz : rem m - 1 = 0
        · rw [if_pos hz, sortQueue_mem]
          constructor
          · intro h
            rcases h with h | ⟨h1, h2⟩
            · rcases List.mem_append.mp h with h | h
              · exact Or.inl h
              · simp only [List.mem_singleton] at h
                subst h
                exact Or.inr ⟨List.mem_cons_self x ms, by omega⟩
            · have hne : x ≠ m := fun he => hnd.1 (he ▸ h1)
              simp only [if_neg hne] at h2
              exact Or.inr ⟨List.mem_cons_of_mem m h1, h2⟩
          · intro h
            rcases h with h | ⟨h1, h2⟩
            · exact Or.inl (List.mem_append.mpr (Or.inl h))
            · rcases List.mem_cons.mp h1 with he | hm2
              · subst he
                exact Or.inl (List.mem_append.mpr (Or.inr (List.mem_singleton.mpr rfl)))
              · have hne : x ≠ m := fun he => hnd.1 (he ▸ hm2)
                refine Or.inr ⟨hm2, ?_⟩
                simp only [if_neg hne]
                exact h2
        · rw [if_neg hz]
          constructor
          · intro h
            rcases h with h | ⟨h1, h2⟩
            · exact Or.inl h
            · have hne : x ≠ m := fun he => hnd.1 (he ▸ h1)
              simp only [if_neg hne] at h2
              exact Or.inr ⟨List.mem_cons_of_mem m h1, h2⟩
          · intro h
            rcases h with h | ⟨h1, h2⟩
            · exact Or.inl h
            · rcases List.mem_cons.mp h1 with he | hm2
              · subst he
                exact absurd (by omega : rem x - 1 = 0) hz
              · have hne : x ≠ m := fun he => hnd.1 (he ▸ hm2)
                refine Or.inr ⟨hm2, ?_⟩
                simp only [if_neg hne]
                exact h2
      · intro hqnd
        rw [processNode]
        apply ihnd
        by_cases hz : rem m - 1 = 0
        · rw [if_pos hz]
          apply sortQueue_nodup
          rw [List.nodup_append]
          refine ⟨hqnd, List.nodup_singleton m, ?_⟩
          intro y hy hy2
          simp only [List.mem_singleton] at hy2
          subst hy2
          exact hq y (List.mem_cons_self y ms) hy (by omega)
        · rw [if_neg hz]
          exact hqnd

theorem filter_notmem_append_of_not_mem {l out : List String} {n : String}
    (hn : ¬ n ∈ l) :
    l.filter (fun p => decide (¬ p ∈ out ++ [n])) =
      l.filter (fun p => decide (¬ p ∈ out)) := by
  apply List.filter_congr
  intro a ha
  have hne : a ≠ n := fun he => hn (he ▸ ha)
  simp [List.mem_append, hne]

theorem filter_notmem_append_length {l out : List String} {n : String}
    (hl : l.Nodup) (hn : n ∈ l) (hno : ¬ n ∈ out) :
    ((l.filter (fun p => decide (¬ p ∈ out ++ [n]))).length : Int) =
      ((l.filter (fun p => decide (¬ p ∈ out))).length : Int) - 1 := by
  have hsplit : l.filter (fun p => decide (¬ p ∈ out ++ [n])) =
      (l.filter (fun p => decide (¬ p ∈ out))).filter (fun p => p != n) := by
    rw [List.filter_filter]
    apply List.filter_congr
    intro a _
    by_cases h1 : a ∈ out <;> by_cases h2 : a = n <;>
      simp [List.mem_append, h1, h2]
  have hmem : n ∈ l.filter (fun p => decide (¬ p ∈ out)) :=
    List.mem_filter.mpr ⟨hn, by simpa using hno⟩
  have hnd : (l.filter (fun p => decide (¬ p ∈ out))).Nodup := hl.filter _
  have herase : (l.filter (fun p => decide (¬ p ∈ out))).filter (fun p => p != n) =
      (l.filter (fun p => decide (¬ p ∈ out))).erase n :=
    (hnd.erase_eq_filter n).symm
  rw [hsplit, herase]
  have hlen := List.length_erase_of_mem hmem
  have hpos : 0 < (l.filter (fun p => decide (¬ p ∈ out))).length :=
    List.length_pos_of_mem hmem
  rw [hlen]
  push_cast [Nat.cast_sub (by omega : 1 ≤ (l.filter (fun p => decide (¬ p ∈ out))).length)]
  ring

theorem kahn_empty_queue_complete (g : List (String × List String))
    (nodes : List String) (rank : String → Nat)
    (hclosed : ∀ s ∈ nodes, ∀ p ∈ glook g s, p ∈ nodes)
    (hrank : ∀ s ∈ nodes, ∀ p ∈ glook g s, rank p < rank s)
    (out : List String) (rem : String → Int)
    (hC : ∀ s ∈ nodes, rem s =
      (((glook g s).filter (fun p => decide (¬ p ∈ out))).length : Int))
    (hD : ∀ s ∈ nodes, (s ∈ ([] : List String) ↔ ¬ s ∈ out ∧ rem s = 0)) :
    ∀ x ∈ nodes, x ∈ out := by
  intro x hx
  by_contra hout
  have hS : x ∈ nodes.filter (fun y => decide (¬ y ∈ out)) :=
    List.mem_filter.mpr ⟨hx, by simpa using hout⟩
  obtain ⟨m, hmS, hmin⟩ := list_exists_min_image
    (nodes.filter (fun y => decide (¬ y ∈ out))) rank
    (fun hnil => by rw [hnil] at hS; simp at hS)
  have hmnodes : m ∈ nodes := (List.mem_filter.mp hmS).1
  have hmout : ¬ m ∈ out := by simpa using (List.mem_filter.mp hmS).2
  have hmrem : ¬ rem m = 0 := by
    intro h0
    have := (hD m hmnodes).mpr ⟨hmout, h0⟩
    simp at this
  have hlen : ((glook g m).filter (fun p => decide (¬ p ∈ out))).length ≠ 0 := by
    intro h0
    apply hmrem
    rw [hC m hmnodes, h0]
    rfl
  obtain ⟨p, hp⟩ := List.exists_mem_of_ne_nil
    ((glook g m).filter (fun p => decide (¬ p ∈ out)))
    (fun hnil => hlen (by rw [hnil]; rfl))
  have hpg : p ∈ glook g m := (List.mem_filter.mp hp).1
  have hpout : ¬ p ∈ out := by simpa using (List.mem_filter.mp hp).2
  have hpnodes : p ∈ nodes := hclosed m hmnodes p hpg
  have hpS : p ∈ nodes.filter (fun y => decide (¬ y ∈ out)) :=
    List.mem_filter.mpr ⟨hpnodes, by simpa using hpout⟩
  have h1 := hmin p hpS
  have h2 := hrank m hmnodes p hpg
  omega

theorem kahnLoop_invariant (g : List (String × List String)) (nodes : List String)
    (rank : String → Nat)
    (hnodes : nodes.Nodup)
    (hvals : ∀ s ∈ nodes, (glook g s).Nodup)
    (hclosed : ∀ s ∈ nodes, ∀ p ∈ glook g s, p ∈ nodes)
    (hrank : ∀ s ∈ nodes, ∀ p ∈ glook g s, rank p < rank s) :
    ∀ (fuel : Nat) (queue out : List String) (rem : String → Int),
      nodes.length - out.length < fuel →
      queue.Nodup → out.Nodup →
      (∀ x ∈ queue, x ∈ nodes) → (∀ x ∈ out, x ∈ nodes) →
      (∀ x, ¬ (x ∈ queue ∧ x ∈ out)) →
      (∀ s ∈ nodes, rem s =
        (((glook g s).filter (fun p => decide (¬ p ∈ out))).length : Int)) →
      (∀ s ∈ nodes, (s ∈ queue ↔ ¬ s ∈ out ∧ rem s = 0)) →
      (∀ s ∈ out, ∀ p ∈ glook g s, p ∈ out ∧ out.indexOf p < out.indexOf s) →
      ((∀ x ∈ nodes, x ∈ kahnLoop nodes (toposortAdj nodes g) fuel queue rem out) ∧
       (kahnLoop nodes (toposortAdj nodes g) fuel queue rem out).Nodup ∧
       (∀ x ∈ kahnLoop nodes (toposortAdj nodes g) fuel queue rem out, x ∈ nodes) ∧
       (∀ s ∈ kahnLoop nodes (toposortAdj nodes g) fuel queue rem out,
         ∀ p ∈ glook g s,
           p ∈ kahnLoop nodes (toposortAdj nodes g) fuel queue rem out ∧
           (kahnLoop nodes (toposortAdj nodes g) fuel queue rem out).indexOf p <
             (kahnLoop nodes (toposortAdj nodes g) fuel queue rem out).indexOf s)) := by
  intro fuel
  induction fuel with
  | zero =>
      intro queue out rem hfuel
      exact absurd hfuel (Nat.not_lt_zero _)
  | succ fuel ih =>
      intro queue out rem hfuel hqnd hond hqsub hosub hdisj hC hD hE
      cases queue with
      | nil =>
          simp only [kahnLoop]
          exact ⟨kahn_empty_queue_complete g nodes rank hclosed hrank out rem hC hD,
            hond, hosub, hE⟩
      | cons n rest =>
          rw [List.nodup_cons] at hqnd
          have hnq : n ∈ nodes := hqsub n (List.mem_cons_self n rest)
          have hnout : ¬ n ∈ out := fun h => hdisj n ⟨List.mem_cons_self n rest, h⟩
          have hrem0 : rem n = 0 := ((hD n hnq).mp (List.mem_cons_self n rest)).2
          have hfilter0 : (glook g n).filter (fun p => decide (¬ p ∈ out)) = [] := by
        
            have hlen : (((glook g n).filter (fun p => decide (¬ p ∈ out))).length : Int)
                = 0 := by rw [← hC n hnq]; exact hrem0
            have : ((glook g n).filter (fun p => decide (¬ p ∈ out))).length = 0 := by
              exact_mod_cast hlen
            exact List.eq_nil_of_length_eq_zero this
          have hPn : ∀ p ∈ glook g n, p ∈ out := by
            intro p hp
            by_contra hpo
            have : p ∈ (glook g n).filter (fun p => decide (¬ p ∈ out)) :=
              List.mem_filter.mpr ⟨hp, by simpa using hpo⟩
            rw [hfilter0] at this
            simp at this
          have hadjsub : ∀ m ∈ toposortAdj nodes g n, m ∈ nodes :=
            fun m hm => ((mem_toposortAdj nodes g n m).mp hm).1
          have hadjnd : (toposortAdj nodes g n).Nodup := hnodes.filter _
          have hnadj : ¬ n ∈ toposortAdj nodes g n := by
            intro h
            have hng := ((mem_toposortAdj nodes g n n).mp h).2
            exact absurd (hrank n hnq n hng) (Nat.lt_irrefl _)
          have hqhyp : ∀ m2 ∈ toposortAdj nodes g n, m2 ∈ rest → ¬ rem m2 = 1 := by
            intro m2 hm2 hr
            have hm2n := ((mem_toposortAdj nodes g n m2).mp hm2).1
            have : rem m2 = 0 := ((hD m2 hm2n).mp (List.mem_cons_of_mem n hr)).2
            omega
          obtain ⟨hrem2, hmem2, hnd2⟩ := processNode_spec nodes (toposortAdj nodes g n)
            rem rest hadjnd hqhyp
          have hout2nd : (out ++ [n]).Nodup := by
            rw [List.nodup_append]
            refine ⟨hond, List.nodup_singleton n, ?_⟩
            intro y hy hy2
            simp only [List.mem_singleton] at hy2
            exact hnout (hy2 ▸ hy)
          have hlt : out.length < nodes.length :=
            length_lt_of_nodup_missing hond hnodes hosub hnq hnout
          have hfuel2 : nodes.length - (out ++ [n]).length < fuel := by
            rw [List.length_append, List.length_singleton]
            omega
          have hq2sub : ∀ x ∈ (processNode nodes rem rest (toposortAdj nodes g n)).2,
              x ∈ nodes := by
            intro x hx
            rcases (hmem2 x).mp hx with h | ⟨h, _⟩
            · exact hqsub x (List.mem_cons_of_mem n h)
            · exact hadjsub x h
          have ho2sub : ∀ x ∈ out ++ [n], x ∈ nodes := by
            intro x hx
            rcases List.mem_append.mp hx with h | h
            · exact hosub x h
            · simp only [List.mem_singleton] at h
              exact h ▸ hnq
          have hdisj2 : ∀ x, ¬ (x ∈ (processNode nodes rem rest (toposortAdj nodes g n)).2 ∧
              x ∈ out ++ [n]) := by
            intro x ⟨hx1, hx2⟩
            rcases (hmem2 x).mp hx1 with h | ⟨h, hr1⟩
            · rcases List.mem_append.mp hx2 with h2 | h2
              · exact hdisj x ⟨List.mem_cons_of_mem n h, h2⟩
              · simp only [List.mem_singleton] at h2
                exact hqnd.1 (h2 ▸ h)
            · have hng := ((mem_toposortAdj nodes g n x).mp h).2
              rcases List.mem_append.mp hx2 with h2 | h2
              · exact hnout (hE x h2 n hng).1
              · simp only [List.mem_singleton] at h2
                subst h2
                exact hnadj h
          have hC2 : ∀ s ∈ nodes,
              (processNode nodes rem rest (toposortAdj nodes g n)).1 s =
              (((glook g s).filter (fun p => decide (¬ p ∈ out ++ [n]))).length : Int) := by
            intro s hs
            rw [hrem2 s]
            by_cases hsadj : s ∈ toposortAdj nodes g n
            · have hngs := ((mem_toposortAdj nodes g n s).mp hsadj).2
              rw [if_pos hsadj, hC s hs,
                filter_notmem_append_length (hvals s hs) hngs hnout]
            · have hnng : ¬ n ∈ glook g s :=
                fun hng => hsadj ((mem_toposortAdj nodes g n s).mpr ⟨hs, hng⟩)
              rw [if_neg hsadj, hC s hs, filter_notmem_append_of_not_mem hnng]
          have hD2 : ∀ s ∈ nodes,
              (s ∈ (processNode nodes rem rest (toposortAdj nodes g n)).2 ↔
                ¬ s ∈ out ++ [n] ∧
                (processNode nodes rem rest (toposortAdj nodes g n)).1 s = 0) := by
            intro s hs
            rw [hmem2 s, hrem2 s]
            by_cases hsn : s = n
            · subst hsn
              constructor
              · intro h
                rcases h with h | ⟨h, _⟩
                · exact absurd h hqnd.1
                · exact absurd h hnadj
              · intro ⟨h, _⟩
                exact absurd (List.mem_append.mpr (Or.inr (List.mem_singleton.mpr rfl))) h
            · by_cases hsadj : s ∈ toposortAdj nodes g n
              · have hngs := ((mem_toposortAdj nodes g n s).mp hsadj).2
                have hsout : ¬ s ∈ out := fun hso => hnout (hE s hso n hngs).1
                have hge : 1 ≤ rem s := by
                  have hmemf : n ∈ (glook g s).filter (fun p => decide (¬ p ∈ out)) :=
                    List.mem_filter.mpr ⟨hngs, by simpa using hnout⟩
                  have := List.length_pos_of_mem hmemf
                  rw [hC s hs]
                  exact_mod_cast this
                have hsrest : ¬ s ∈ rest := by
                  intro hr
                  have := ((hD s hs).mp (List.mem_cons_of_mem n hr)).2
                  omega
                rw [if_pos hsadj]
                constructor
                · intro h
                  rcases h with h | ⟨_, hr1⟩
                  · exact absurd h hsrest
                  · refine ⟨?_, by omega⟩
                    intro hmem
                    rcases List.mem_append.mp hmem with h2 | h2
                    · exact hsout h2
                    · simp only [List.mem_singleton] at h2
                      exact hsn h2
                · intro ⟨_, h2⟩
                  exact Or.inr ⟨hsadj, by omega⟩
              · rw [if_neg hsadj]
                constructor
                · intro h
                  rcases h with h | ⟨h, _⟩
                  · have := (hD s hs).mp (List.mem_cons_of_mem n h)
                    refine ⟨?_, this.2⟩
                    intro hmem
                    rcases List.mem_append.mp hmem with h2 | h2
                    · exact this.1 h2
                    · simp only [List.mem_singleton] at h2
                      exact hsn h2
                  · exact absurd h hsadj
                · intro ⟨h1, h2⟩
                  have hsout : ¬ s ∈ out :=
                    fun hso => h1 (List.mem_append.mpr (Or.inl hso))
                  have : s ∈ n :: rest := (hD s hs).mpr ⟨hsout, h2⟩
                  rcases List.mem_cons.mp this with h3 | h3
                  · exact absurd h3 hsn
                  · exact Or.inl h3
          have hE2 : ∀ s ∈ out ++ [n], ∀ p ∈ glook g s,
              p ∈ out ++ [n] ∧ (out ++ [n]).indexOf p < (out ++ [n]).indexOf s := by
            intro s hs p hp
            rcases List.mem_append.mp hs with h | h
            · have := hE s h p hp
              refine ⟨List.mem_append.mpr (Or.inl this.1), ?_⟩
              rw [List.indexOf_append_of_mem this.1, List.indexOf_append_of_mem h]
              exact this.2
            · simp only [List.mem_singleton] at h
              subst h
              have hpo := hPn p hp
              refine ⟨List.mem_append.mpr (Or.inl hpo), ?_⟩
              rw [List.indexOf_append_of_mem hpo,
                List.indexOf_append_of_not_mem hnout]
              have := List.indexOf_lt_length.mpr hpo
              simp only [List.indexOf_cons_self]
              omega
          have := ih (processNode nodes rem rest (toposortAdj nodes g n)).2 (out ++ [n])
            (processNode nodes rem rest (toposortAdj nodes g n)).1
            hfuel2 (hnd2 hqnd.2) hout2nd hq2sub ho2sub hdisj2 hC2 hD2 hE2
          rw [kahnLoop]
          exact this

theorem toposortErrors_nil_of_closed (order : List String)
    (g : List (String × List String))
    (hclosed : ∀ s ∈ toposortNodes order g, ∀ p ∈ glook g s,
      p ∈ toposortNodes order g) :
    toposortErrors order g = [] := by
  rw [toposortErrors, concatMap_eq_nil_iff]
  intro s hs
  rw [List.map_eq_nil_iff, List.filter_eq_nil_iff]
  intro p hp
  simp [hclosed s hs p hp]

/-- C7: for every preference order (without duplicates, matching the
restricted node *set* of the claim) and prerequisite map whose restricted
part is closed (every prerequisite of a restricted node is itself
restricted) and acyclic (witnessed by a rank function that decreases along
prerequisite edges), `_toposort_respecting_order` succeeds and returns a
permutation of the restricted nodes in which every prerequisite appears
strictly before each stage depending on it.  The result is the value of a
pure function of the order and the graph, so it is deterministic; the
first conjunct pins it to `toposortOut order g`. -/
theorem C7_toposort_topological_order (order : List String)
    (g : List (String × List String))
    (hord : order.Nodup)
    (hvals : ∀ s ∈ toposortNodes order g, (glook g s).Nodup)
    (hclosed : ∀ s ∈ toposortNodes order g, ∀ p ∈ glook g s,
      p ∈ toposortNodes order g)
    (hacyc : ∃ rank : String → Nat, ∀ s ∈ toposortNodes order g, ∀ p ∈ glook g s,
      rank p < rank s) :
    toposort_respecting_order order g = Except.ok (toposortOut order g) ∧
    (toposortOut order g).Perm (toposortNodes order g) ∧
    (∀ s ∈ toposortNodes order g, ∀ p ∈ glook g s,
      (toposortOut order g).indexOf p < (toposortOut order g).indexOf s) := by
  obtain ⟨rank, hrank⟩ := hacyc
  have hnodes : (toposortNodes order g).Nodup := hord.filter _
  have hC0 : ∀ s ∈ toposortNodes order g,
      toposortIndeg (toposortNodes order g) g s =
      (((glook g s).filter (fun p => decide (¬ p ∈ ([] : List String)))).length : Int) := by
    intro s hs
    rw [toposortIndeg]
    have h1 : (glook g s).filter (fun p => decide (p ∈ toposortNodes order g)) =
        glook g s :=
      List.filter_eq_self.mpr (fun p hp => by simpa using hclosed s hs p hp)
    have h2 : (glook g s).filter (fun p => decide (¬ p ∈ ([] : List String))) =
        glook g s :=
      List.filter_eq_self.mpr (fun p _ => by simp)
    rw [h1, h2]
  have hD0 : ∀ s ∈ toposortNodes order g,
      (s ∈ (toposortNodes order g).filter
          (fun s => decide (toposortIndeg (toposortNodes order g) g s = 0)) ↔
        ¬ s ∈ ([] : List String) ∧ toposortIndeg (toposortNodes order g) g s = 0) := by
    intro s hs
    constructor
    · intro h
      exact ⟨by simp, of_decide_eq_true (List.mem_filter.mp h).2⟩
    · intro ⟨_, h⟩
      exact List.mem_filter.mpr ⟨hs, by simpa using h⟩
  have hmain := kahnLoop_invariant g (toposortNodes order g) rank hnodes hvals hclosed
    hrank (2 * (toposortNodes order g).length + 1)
    ((toposortNodes order g).filter
      (fun s => decide (toposortIndeg (toposortNodes order g) g s = 0)))
    [] (toposortIndeg (toposortNodes order g) g)
    (by simp; omega)
    (hnodes.filter _)
    List.nodup_nil
    (fun x hx => List.mem_of_mem_filter hx)
    (fun x hx => by simp at hx)
    (fun x ⟨_, hx⟩ => by simp at hx)
    hC0 hD0
    (fun s hs => by simp at hs)
  rw [← toposortOut] at hmain
  obtain ⟨hcompl, hnd, hsub, hvalid⟩ := hmain
  have hperm : (toposortOut order g).Perm (toposortNodes order g) := by
    apply List.perm_of_nodup_nodup_toFinset_eq hnd hnodes
    apply Finset.ext
    intro x
    simp only [List.mem_toFinset]
    exact ⟨fun h => hsub x h, fun h => hcompl x h⟩
  have herr : toposortErrors order g = [] := toposortErrors_nil_of_closed order g hclosed
  have hlen : (toposortOut order g).length = (toposortNodes order g).length :=
    hperm.length_eq
  refine ⟨?_, hperm, ?_⟩
  · rw [toposort_respecting_order, herr, if_pos rfl, if_pos hlen]
  · intro s hs p hp
    exact (hvalid s (hcompl s hs) p hp).2

/-- Witness for C7: the spec's out-of-order preference `["b", "a"]` with
`b` depending on `a` schedules as `["a", "b"]`, a topologically valid
permutation of the nodes. -/
theorem C7_toposort_topological_order_witness :
    ((["b", "a"] : List String).Nodup ∧
     (∀ s ∈ toposortNodes ["b", "a"] resumeGraph,
       (glook resumeGraph s).Nodup) ∧
     (∀ s ∈ toposortNodes ["b", "a"] resumeGraph,
       ∀ p ∈ glook resumeGraph s, p ∈ toposortNodes ["b", "a"] resumeGraph)) ∧
    (toposort_respecting_order ["b", "a"] resumeGraph =
      Except.ok (toposortOut ["b", "a"] resumeGraph) ∧
     (toposortOut ["b", "a"] resumeGraph).Perm (toposortNodes ["b", "a"] resumeGraph) ∧
     (∀ s ∈ toposortNodes ["b", "a"] resumeGraph, ∀ p ∈ glook resumeGraph s,
       (toposortOut ["b", "a"] resumeGraph).indexOf p <
         (toposortOut ["b", "a"] resumeGraph).indexOf s)) :=
  ⟨⟨by decide, by decide, by decide⟩,
    C7_toposort_topological_order ["b", "a"] resumeGraph (by decide) (by decide)
      (by decide)
      ⟨fun s => if s = "b" then 1 else 0, by decide⟩⟩
